import Mathlib

/-!
Shallow embedding of the reconciliation engine of the
`geospatialtracking` repository (GST/Tally invoice reconciliation).

Source files embedded:
  * `src/utils/reconciliation.js` — the in-memory matcher `reconcileData`
    with its helpers `createKey` and `findDiscrepancies`;
  * `src/index.js` — the `/api/reconcile-mapped-data` route's partial
    matcher (best-candidate search, discrepancy budget, monetary severity
    classification), the SQL exact-match formulation of
    `performSQLReconciliation`, the value normalizers
    `normalizeValueForDB` / `normalizeValue`, and the date subsystem
    (`isValidDate`, `excelSerialToDate`, `convertToStandardDate`).

JavaScript dynamic values are modelled by `JSVal`; machine floats do not
occur in the embedded logic (all numeric work is on decimal strings), so
numbers are modelled exactly by `Int` (cell values) and `Rat` (parsed
monetary amounts and date serials).
-/

set_option maxHeartbeats 1000000

namespace GstRecon

/-- Model of a JavaScript value as it occurs in a parsed spreadsheet row:
`null`, `undefined`, a string, a (integral) number, or a boolean. -/
inductive JSVal where
  | null : JSVal
  | undefined : JSVal
  | str : String → JSVal
  | num : Int → JSVal
  | bool : Bool → JSVal
deriving DecidableEq, Repr

/-- JavaScript truthiness on `JSVal`: `null`, `undefined`, `''`, `0` and
`false` are falsy, everything else truthy. -/
def isFalsy : JSVal → Bool
  | .null => true
  | .undefined => true
  | .str s => s = ""
  | .num n => n = 0
  | .bool b => !b

/-- JavaScript `String(v)` on the modelled values. -/
def jsToString : JSVal → String
  | .null => "null"
  | .undefined => "undefined"
  | .str s => s
  | .num n => toString n
  | .bool b => if b then "true" else "false"

/-- JavaScript `v || ''`: a falsy value is replaced by the empty string. -/
def orEmpty (v : JSVal) : JSVal :=
  if isFalsy v then .str "" else v

/-- Whitespace characters removed by JavaScript `String.prototype.trim`
(space, tab, line feed, carriage return, vertical tab, form feed;
the rarer Unicode space characters are not modelled). -/
def isJsWs (c : Char) : Bool :=
  c = ' ' || c = '\t' || c = '\n' || c = '\r' || c = '\x0b' || c = '\x0c'

/-- Character-list version of `trim`: drop whitespace from both ends. -/
def trimChars (l : List Char) : List Char :=
  ((l.dropWhile isJsWs).reverse.dropWhile isJsWs).reverse

/-- JavaScript `s.trim()`. -/
def jsTrim (s : String) : String :=
  ⟨trimChars s.data⟩

/-- JavaScript `s.toLowerCase()` (ASCII case mapping). -/
def jsToLower (s : String) : String :=
  ⟨s.data.map Char.toLower⟩

/-- A parsed spreadsheet row: a mapping from column name to cell value
(missing columns read as `undefined`). -/
def Rec := String → JSVal

/-- Build a record from an association list of cells. -/
def recOf (cells : List (String × JSVal)) : Rec :=
  fun c => ((cells.lookup c).getD .undefined)

/-- Cell normalization used by `createKey` and `findDiscrepancies` in
`src/utils/reconciliation.js`: `String(record[col] || '').trim().toLowerCase()`. -/
def normCell (v : JSVal) : String :=
  jsToLower (jsTrim (jsToString (orEmpty v)))

/-- `createKey` of `src/utils/reconciliation.js`: the mapped columns'
normalized cells joined with `'|'`. -/
def createKey (record : Rec) (columns : List String) : String :=
  String.intercalate "|" (columns.map fun col => normCell (record col))

/-- One column disagreement recorded by `findDiscrepancies`
(`{field, gstValue, tallyValue}` with the raw cell values). -/
structure Discrepancy where
  field : String
  gstValue : JSVal
  tallyValue : JSVal
deriving DecidableEq, Repr

/-- `findDiscrepancies` of `src/utils/reconciliation.js`: compare the first
`min |gstColumns| |tallyColumns|` mapped column pairs under `normCell`
equality and record each mismatch. -/
def findDiscrepancies (gstRecord tallyRecord : Rec)
    (gstColumns tallyColumns : List String) : List Discrepancy :=
  (gstColumns.zip tallyColumns).filterMap fun p =>
    if normCell (gstRecord p.1) ≠ normCell (tallyRecord p.2) then
      some ⟨p.1, gstRecord p.1, tallyRecord p.2⟩
    else
      none

/-- An entry of `exactMatches`: the code stores the GST record and the
Tally record (the latter carrying its `_index`); the GST index is the
iteration index and is recorded here to identify the record. -/
structure ExactEntry where
  gstIndex : Nat
  gstRecord : Rec
  tallyIndex : Nat
  tallyRecord : Rec

/-- An entry of `partialMatches` of `reconcileData` (indices recorded as
for `ExactEntry`). -/
structure PartialEntry where
  gstIndex : Nat
  gstRecord : Rec
  tallyIndex : Nat
  tallyRecord : Rec
  discrepancies : List Discrepancy

/-- An entry of `gstMismatches`/`tallyMismatches`
(`{record, source, type}`; the index identifies the record). -/
structure MismatchEntry where
  index : Nat
  record : Rec
  source : String
  mtype : String

/-- The mutable state threaded through `reconcileData`'s two passes. -/
structure ReconState where
  exactMatches : List ExactEntry
  partialMatches : List PartialEntry
  matchedTallyIds : Finset Nat
  matchedGstIds : Finset Nat

/-- Initial state of `reconcileData`: empty result lists and matched sets. -/
def initState : ReconState := ⟨[], [], ∅, ∅⟩

/-- The Tally records sharing a given key, with their indices, in input
order — exactly the bucket `tallyMap.get(key)` of the multi-map built at
the top of `reconcileData`. -/
def tallyBucket (tallyData : List Rec) (tallyColumns : List String)
    (key : String) : List (Nat × Rec) :=
  tallyData.enum.filter fun p => createKey p.2 tallyColumns = key

/-- Inner loop of the exact pass: the GST record at `gstIndex` is paired
with every candidate Tally record not yet consumed
(`tallyMatches.forEach` in `reconcileData`). -/
def exactInner (gstIndex : Nat) (gstRecord : Rec)
    (cands : List (Nat × Rec)) (st : ReconState) : ReconState :=
  cands.foldl
    (fun st p =>
      if p.1 ∈ st.matchedTallyIds then st
      else
        { st with
          exactMatches := st.exactMatches ++ [⟨gstIndex, gstRecord, p.1, p.2⟩]
          matchedTallyIds := insert p.1 st.matchedTallyIds
          matchedGstIds := insert gstIndex st.matchedGstIds })
    st

/-- Exact pass of `reconcileData`: for each GST record in input order,
look up its key in the Tally multi-map and run the inner loop. -/
def exactPass (gstData tallyData : List Rec)
    (gstColumns tallyColumns : List String) : ReconState :=
  gstData.enum.foldl
    (fun st p =>
      exactInner p.1 p.2
        (tallyBucket tallyData tallyColumns (createKey p.2 gstColumns)) st)
    initState

/-- Inner loop of the partial pass: scan all Tally records; an unconsumed
one with `0 < discrepancies < gstColumns.length` is taken as a partial
match (the scan continues afterwards, as in the source). -/
def partialInner (gstIndex : Nat) (gstRecord : Rec) (tallyData : List Rec)
    (gstColumns tallyColumns : List String) (st : ReconState) : ReconState :=
  tallyData.enum.foldl
    (fun st p =>
      if p.1 ∈ st.matchedTallyIds then st
      else
        let d := findDiscrepancies gstRecord p.2 gstColumns tallyColumns
        if 0 < d.length ∧ d.length < gstColumns.length then
          { st with
            partialMatches := st.partialMatches ++ [⟨gstIndex, gstRecord, p.1, p.2, d⟩]
            matchedTallyIds := insert p.1 st.matchedTallyIds
            matchedGstIds := insert gstIndex st.matchedGstIds }
        else st)
    st

/-- Partial pass of `reconcileData`: every GST record not matched exactly
is run through the inner scan. -/
def partialPass (gstData tallyData : List Rec)
    (gstColumns tallyColumns : List String) (st : ReconState) : ReconState :=
  gstData.enum.foldl
    (fun st p =>
      if p.1 ∈ st.matchedGstIds then st
      else partialInner p.1 p.2 tallyData gstColumns tallyColumns st)
    st

/-- The four result buckets returned by `reconcileData`. -/
structure ReconResult where
  exactMatches : List ExactEntry
  partialMatches : List PartialEntry
  tallyMismatches : List MismatchEntry
  gstMismatches : List MismatchEntry

/-- `reconcileData` of `src/utils/reconciliation.js`: exact pass, partial
pass, then the residual mismatch scans. -/
def reconcileData (gstData tallyData : List Rec)
    (gstColumns tallyColumns : List String) : ReconResult :=
  let st1 := exactPass gstData tallyData gstColumns tallyColumns
  let st2 := partialPass gstData tallyData gstColumns tallyColumns st1
  { exactMatches := st2.exactMatches
    partialMatches := st2.partialMatches
    tallyMismatches :=
      (tallyData.enum.filter fun p => p.1 ∉ st2.matchedTallyIds).map
        fun p => ⟨p.1, p.2, "Tally", "missing_in_gst"⟩
    gstMismatches :=
      (gstData.enum.filter fun p => p.1 ∉ st2.matchedGstIds).map
        fun p => ⟨p.1, p.2, "GST", "missing_in_tally"⟩ }

/-! ### Numeric string parsing (JS `parseFloat`, `parseInt`, `ToNumber`) -/

/-- Value of a digit string (most significant first). -/
def digitsVal (l : List Char) : Nat :=
  l.foldl (fun a c => a * 10 + (c.toNat - '0'.toNat)) 0

/-- Exponent part of a numeric literal for `parseFloat`: an optional sign
followed by digits; an invalid exponent counts as absent (exponent 0). -/
def expPart (l : List Char) : Int :=
  match l with
  | '-' :: r => if (r.takeWhile Char.isDigit).isEmpty then 0 else -(digitsVal (r.takeWhile Char.isDigit) : Int)
  | '+' :: r => if (r.takeWhile Char.isDigit).isEmpty then 0 else (digitsVal (r.takeWhile Char.isDigit) : Int)
  | _ => if (l.takeWhile Char.isDigit).isEmpty then 0 else (digitsVal (l.takeWhile Char.isDigit) : Int)

/-- Unsigned core of JS `parseFloat`: longest prefix of the form
`digits [. digits] [e sign digits]`; `none` when no digit is read (NaN).
`Infinity` literals are not modelled (they cannot pass the callers'
range guards either way). -/
def parseFloatCore (l : List Char) : Option Rat :=
  let ip := l.takeWhile Char.isDigit
  let rest := l.drop ip.length
  let fp :=
    match rest with
    | '.' :: r => r.takeWhile Char.isDigit
    | _ => []
  let rest2 :=
    match rest with
    | '.' :: r => r.drop fp.length
    | _ => rest
  if ip.isEmpty ∧ fp.isEmpty then none
  else
    let mantissa : Rat := (digitsVal ip : Rat) + (digitsVal fp : Rat) / ((10 : Rat) ^ fp.length)
    let e : Int :=
      match rest2 with
      | 'e' :: r => expPart r
      | 'E' :: r => expPart r
      | _ => 0
    some (mantissa * (10 : Rat) ^ e)

/-- JS `parseFloat` on a string: skip leading whitespace, optional sign,
then the longest numeric prefix; `none` models NaN. -/
def parseFloatJS (s : String) : Option Rat :=
  match s.data.dropWhile isJsWs with
  | '-' :: r => (parseFloatCore r).map Neg.neg
  | '+' :: r => parseFloatCore r
  | l => parseFloatCore l

/-- Digit-prefix part of JS `parseInt` (radix 10); `none` models NaN. -/
def parseIntDigits (l : List Char) : Option Int :=
  let d := l.takeWhile Char.isDigit
  if d.isEmpty then none else some (digitsVal d : Int)

/-- JS `parseInt(s)` (radix 10): skip leading whitespace, optional sign,
then the digit prefix; `none` models NaN. -/
def parseIntJS (s : String) : Option Int :=
  match s.data.dropWhile isJsWs with
  | '-' :: r => (parseIntDigits r).map Neg.neg
  | '+' :: r => parseIntDigits r
  | l => parseIntDigits l

/-- Unsigned full-string decimal literal for JS `ToNumber`: the whole
input must be consumed (unlike `parseFloat`). -/
def toNumberCore (l : List Char) : Option Rat :=
  let ip := l.takeWhile Char.isDigit
  let rest := l.drop ip.length
  let fp :=
    match rest with
    | '.' :: r => r.takeWhile Char.isDigit
    | _ => []
  let rest2 :=
    match rest with
    | '.' :: r => r.drop fp.length
    | _ => rest
  if ip.isEmpty ∧ fp.isEmpty then none
  else
    let mantissa : Rat := (digitsVal ip : Rat) + (digitsVal fp : Rat) / ((10 : Rat) ^ fp.length)
    match rest2 with
    | [] => some mantissa
    | 'e' :: r => (toNumberExp r).map fun e => mantissa * (10 : Rat) ^ e
    | 'E' :: r => (toNumberExp r).map fun e => mantissa * (10 : Rat) ^ e
    | _ => none
where
  /-- Fully consumed exponent: sign and a nonempty digit suffix. -/
  toNumberExp (l : List Char) : Option Int :=
    match l with
    | '-' :: r => if r ≠ [] ∧ r.all Char.isDigit then some (-(digitsVal r : Int)) else none
    | '+' :: r => if r ≠ [] ∧ r.all Char.isDigit then some (digitsVal r : Int) else none
    | r => if r ≠ [] ∧ r.all Char.isDigit then some (digitsVal r : Int) else none

/-- JS `ToNumber` on a string: trimmed empty string is `0`, otherwise the
whole trimmed string must be a decimal literal; `none` models NaN
(`Infinity` and hex literals are not modelled). -/
def toNumberJS (s : String) : Option Rat :=
  match trimChars s.data with
  | [] => some 0
  | '-' :: r => (toNumberCore r).map Neg.neg
  | '+' :: r => toNumberCore r
  | l => toNumberCore l

/-- JS loose equality `==` on the modelled primitive values. -/
def looseEq (a b : JSVal) : Bool :=
  match a, b with
  | .null, .null => true
  | .undefined, .undefined => true
  | .null, .undefined => true
  | .undefined, .null => true
  | .num m, .num n => m = n
  | .str s, .str t => s = t
  | .num m, .str t => toNumberJS t = some (m : Rat)
  | .str s, .num n => toNumberJS s = some (n : Rat)
  | .bool x, .bool y => x = y
  | .bool x, .num n => (if x then (1 : Rat) else 0) = (n : Rat)
  | .num m, .bool y => (m : Rat) = (if y then (1 : Rat) else 0)
  | .bool x, .str t => toNumberJS t = some (if x then (1 : Rat) else 0)
  | .str s, .bool y => toNumberJS s = some (if y then (1 : Rat) else 0)
  | _, _ => false

/-! ### Value normalizers (`src/index.js` and `src/utils/fileParser.js`) -/

/-- `normalizeValueForDB` of `src/index.js`: `null`, `undefined` and `''`
become the number `0`; a value trimming to the bare `'-'` becomes `0`;
anything else becomes its trimmed string. -/
def normalizeValueForDB (value : JSVal) : JSVal :=
  if value = .null ∨ value = .undefined ∨ value = .str "" then .num 0
  else if jsTrim (jsToString value) = "-" then .num 0
  else .str (jsTrim (jsToString value))

/-- `normalizeValue` of the file parser (`src/index.js` line 1513): same
body as `normalizeValueForDB`. -/
def normalizeValue (value : JSVal) : JSVal :=
  if value = .null ∨ value = .undefined ∨ value = .str "" then .num 0
  else if jsTrim (jsToString value) = "-" then .num 0
  else .str (jsTrim (jsToString value))

/-! ### The `/api/reconcile-mapped-data` partial matcher (`src/index.js`) -/

/-- A stored row of a mapped table: a database id and the cells. -/
structure Row where
  id : Nat
  cells : Rec

/-- Does the string start like an ISO timestamp (`YYYY-MM-DDT...`,
regex `/^\d{4}-\d{2}-\d{2}T/`)? -/
def isIsoTs (l : List Char) : Bool :=
  match l with
  | y1 :: y2 :: y3 :: y4 :: '-' :: m1 :: m2 :: '-' :: d1 :: d2 :: 'T' :: _ =>
      y1.isDigit && y2.isDigit && y3.isDigit && y4.isDigit &&
      m1.isDigit && m2.isDigit && d1.isDigit && d2.isDigit
  | _ => false

/-- Collapse an ISO-timestamp-looking value to its date-only prefix
(`split('T')[0]`). -/
def isoCollapse (s : String) : String :=
  if isIsoTs s.data then ⟨s.data.take 10⟩ else s

/-- Cell normalization of the route matcher:
`String(row[col] || '').trim()` followed by the ISO-timestamp collapse
(note: no lower-casing here, unlike `createKey`). -/
def routeVal (r : Row) (col : String) : String :=
  isoCollapse (jsTrim (jsToString (orEmpty (r.cells col))))

/-- One discrepancy recorded by the route matcher
(`{columnIndex, gstColumn, tallyColumn, gstValue, tallyValue}`, with the
normalized string values). -/
structure RouteDisc where
  columnIndex : Nat
  gstColumn : String
  tallyColumn : String
  gstValue : String
  tallyValue : String
deriving DecidableEq, Repr

/-- Lookup of `columns[i]`: a JS out-of-range read yields `undefined`,
which as a property key is the string `"undefined"`. -/
def colAt (cols : List String) (i : Nat) : String :=
  cols.getD i "undefined"

/-- Discrepancy scan of the route matcher: for `i < gstColumnNames.length`
compare the normalized cells and record each mismatch. -/
def routeDiscrepancies (g t : Row) (gc tc : List String) : List RouteDisc :=
  (List.range gc.length).filterMap fun i =>
    let gv := routeVal g (colAt gc i)
    let tv := routeVal t (colAt tc i)
    if gv ≠ tv then some ⟨i, colAt gc i, colAt tc i, gv, tv⟩ else none

/-- State of the best-candidate search
(`bestMatch` / `bestDiscrepancies` / `discrepancyColumns`). -/
structure BestSt where
  bestMatch : Option Row
  bestDiscrepancies : Nat
  discrepancyColumns : List RouteDisc

/-- Initial best-candidate state (`null`, `999`, `[]`). -/
def bestInit : BestSt := ⟨none, 999, []⟩

/-- One step of the best-candidate search: skip consumed rows; a candidate
with `1 <= d <= 3 && d < bestDiscrepancies` replaces the held best. -/
def considerTally (g : Row) (gc tc : List String) (matchedTally : Finset Nat)
    (st : BestSt) (t : Row) : BestSt :=
  if t.id ∈ matchedTally then st
  else
    let d := routeDiscrepancies g t gc tc
    if 1 ≤ d.length ∧ d.length ≤ 3 ∧ d.length < st.bestDiscrepancies then
      ⟨some t, d.length, d⟩
    else st

/-- Best-candidate search over all Tally rows for one GST row. -/
def findBest (g : Row) (gc tc : List String) (matchedTally : Finset Nat)
    (tallyData : List Row) : BestSt :=
  tallyData.foldl (considerTally g gc tc matchedTally) bestInit

/-- The fixed tax/monetary column-name fragments of the route matcher. -/
def taxColumns : List String :=
  ["taxable_value", "col_taxable_value", "igst", "col_igst", "cgst", "col_cgst",
   "sgst", "col_sgst", "integrated_tax", "col_integrated_tax", "central_tax",
   "col_central_tax", "state_ut_tax", "col_state_ut_tax"]

/-- Is `sub` a prefix of the character list? -/
def leadsWith : List Char → List Char → Bool
  | [], _ => true
  | _ :: _, [] => false
  | a :: as, b :: bs => a == b && leadsWith as bs

/-- Does the character list contain `sub` as a contiguous subsequence? -/
def containsSeq (sub : List Char) : List Char → Bool
  | [] => leadsWith sub []
  | h :: t => leadsWith sub (h :: t) || containsSeq sub t

/-- JS `s.includes(sub)`. -/
def strIncludes (s sub : String) : Bool :=
  containsSeq sub.data s.data

/-- Is the (GST) column name a monetary column
(`taxColumns.some(tc => colName.includes(tc))` on the lower-cased name)? -/
def isMonetaryCol (col : String) : Bool :=
  taxColumns.any fun tcn => strIncludes (jsToLower col) tcn

/-- Keep only digits, `'.'` and `'-'` (`replace(/[^0-9.-]/g, '')`). -/
def stripNonNum (s : String) : String :=
  ⟨s.data.filter fun c => c.isDigit || c = '.' || c = '-'⟩

/-- Monetary parse of the route matcher:
`parseFloat(String(v).replace(/[^0-9.-]/g, '')) || 0`. -/
def parseNum (s : String) : Rat :=
  (parseFloatJS (stripNonNum s)).getD 0

/-- One step of the severity scan (`discrepancyColumns.forEach`): on a
monetary column, fold the absolute delta into `maxDiscrepancy` and set
`hasLargeDiscrepancy` when the delta is `>= 1`. -/
def severityStep (st : Rat × Bool) (d : RouteDisc) : Rat × Bool :=
  if isMonetaryCol d.gstColumn then
    let diff := |parseNum d.gstValue - parseNum d.tallyValue|
    (max st.1 diff, st.2 || decide (1 ≤ diff))
  else st

/-- Severity scan over the best candidate's discrepancies, returning
`(maxDiscrepancy, hasLargeDiscrepancy)`. -/
def severityOf (discs : List RouteDisc) : Rat × Bool :=
  discs.foldl severityStep (0, false)

/-- A partial match emitted by the route matcher. -/
structure RouteEntry where
  gst : Row
  tally : Row
  discrepancies : Nat
  discrepancyColumns : List RouteDisc
  maxDiscrepancy : Rat
  isMinor : Bool

/-- State threaded through the route matcher's outer loop. -/
structure RouteSt where
  partialMatches : List RouteEntry
  matchedGstIds : Finset Nat
  matchedTallyIds : Finset Nat

/-- One outer-loop step of the route matcher: skip matched GST rows, run
the best-candidate search, classify severity, emit the entry and consume
both ids. -/
def routeStep (tallyData : List Row) (gc tc : List String)
    (st : RouteSt) (g : Row) : RouteSt :=
  if g.id ∈ st.matchedGstIds then st
  else
    let b := findBest g gc tc st.matchedTallyIds tallyData
    match b.bestMatch with
    | none => st
    | some t =>
        if b.bestDiscrepancies ≤ 3 then
          let sev := severityOf b.discrepancyColumns
          { partialMatches := st.partialMatches ++
              [⟨g, t, b.bestDiscrepancies, b.discrepancyColumns, sev.1,
                !sev.2 && decide (0 < sev.1)⟩]
            matchedGstIds := insert g.id st.matchedGstIds
            matchedTallyIds := insert t.id st.matchedTallyIds }
        else st

/-- The partial-matching stage of `/api/reconcile-mapped-data`, starting
from the matched-id sets left by the exact stage. -/
def routePartialPass (gstData tallyData : List Row) (gc tc : List String)
    (initGst initTally : Finset Nat) : RouteSt :=
  gstData.foldl (routeStep tallyData gc tc) ⟨[], initGst, initTally⟩

/-! ### SQL set-operation formulation (`performSQLReconciliation`) -/

/-- Projection of a record through the mapped columns — the spec's
`MatchKey` as a tuple (ordered list) of normalized cells. -/
def keyTuple (r : Rec) (cols : List String) : List String :=
  cols.map fun c => normCell (r c)

/-- Modelled from the spec: the relational exact-match formulation —
`INNER JOIN` of the two mapped tables on equality of all projected
feature columns (`performSQLReconciliation`, Match Type 1), one output
row per joined pair, enumerated GST-major in input order. The stored
feature values are modelled by the engine's key normalization
(spec §3 `MatchKey`). -/
def sqlExactPairs (gstData tallyData : List Rec) (gc tc : List String) :
    List (Nat × Nat) :=
  gstData.enum.flatMap fun gp =>
    tallyData.enum.filterMap fun tp =>
      if keyTuple gp.2 gc = keyTuple tp.2 tc then some (gp.1, tp.1) else none

/-! ### Date subsystem (`src/index.js`) -/

/-- `isValidDate` of the route's date helpers, on the raw string parts:
the JS comparisons are on `parseInt` results, and a NaN (`none`)
component passes every range check. -/
def isValidDate (year month day : String) : Bool :=
  let ltc : Option Int → Int → Bool := fun v c =>
    match v with
    | some x => x < c
    | none => false
  let gtc : Option Int → Int → Bool := fun v c =>
    match v with
    | some x => c < x
    | none => false
  let y := parseIntJS year
  let m := parseIntJS month
  let d := parseIntJS day
  !(ltc m 1 || gtc m 12 || ltc d 1 || gtc d 31 || ltc y 1900 || gtc y 2100)

/-- Proleptic Gregorian calendar date from a day count relative to
1970-01-01 (standard civil-from-days algorithm; `Int` division is
floor division for the positive divisors used here). -/
def civilFromDays (z : Int) : Int × Int × Int :=
  let z' := z + 719468
  let era := z' / 146097
  let doe := z' - era * 146097
  let yoe := (doe - doe / 1460 + doe / 36524 - doe / 146096) / 365
  let y := yoe + era * 400
  let doy := doe - (365 * yoe + yoe / 4 - yoe / 100)
  let mp := (5 * doy + 2) / 153
  let d := doy - (153 * mp + 2) / 5 + 1
  let m := mp + (if mp < 10 then 3 else -9)
  (y + (if m ≤ 2 then 1 else 0), m, d)

/-- JS `String(n).padStart(2, '0')`. -/
def padStart2 (s : String) : String :=
  if s.length = 0 then "00" else if s.length = 1 then "0" ++ s else s

/-- `excelSerialToDate` of `src/index.js`: day 1 is 1900-01-01; serials
above 59 are decremented by one for the 1900 leap-year bug; the result
is the calendar date `(serial - 1)` days after the epoch (fractional
serials fall on the same civil day, modelled by the floor), formatted
`YYYY-MM-DD` with zero-padded month and day. -/
def excelSerialToDate (serial : Rat) : Option String :=
  if serial < 0 then none
  else
    let adjusted := if 59 < serial then serial - 1 else serial
    let offset : Int := ⌊adjusted - 1⌋
    let ymd := civilFromDays (-25567 + offset)
    some (toString ymd.1 ++ "-" ++ padStart2 (toString ymd.2.1) ++ "-" ++
          padStart2 (toString ymd.2.2))

/-- Split on `'-'` or `'/'`, preserving empty parts (the JS `split` on a
regex character class of dash and slash). -/
def splitSepsChars : List Char → List Char → List String
  | [], cur => [⟨cur.reverse⟩]
  | c :: rest, cur =>
      if c = '-' ∨ c = '/' then ⟨cur.reverse⟩ :: splitSepsChars rest []
      else splitSepsChars rest (c :: cur)

/-- String version of the dash-or-slash split. -/
def splitSeps (s : String) : List String :=
  splitSepsChars s.data []

/-- Assemble the `YYYY-MM-DD` output of `convertToStandardDate` after
validation (year kept verbatim, month and day zero-padded). -/
def mkDateOut (year month day : String) : Option String :=
  if isValidDate year month day then
    some (year ++ "-" ++ padStart2 month ++ "-" ++ padStart2 day)
  else none

/-- `convertToStandardDate` of `src/index.js`: falsy input is `null`; a
`parseFloat`-numeric value strictly between 30000 and 50000 goes through
the spreadsheet-serial conversion; otherwise the value is split on
`-`/`/` into exactly 3 parts, the length-4 first or last part is taken
as the year, the parts are validated and the date is reassembled;
`none` models `null`. -/
def convertToStandardDate (value : JSVal) : Option String :=
  if isFalsy value then none
  else
    let str := jsTrim (jsToString value)
    let serialRes : Option String :=
      match parseFloatJS str with
      | some numVal =>
          if 30000 < numVal ∧ numVal < 50000 then excelSerialToDate numVal
          else none
      | none => none
    match serialRes with
    | some ds => some ds
    | none =>
        match splitSeps str with
        | [p0, p1, p2] =>
            if p0.length = 4 then mkDateOut p0 p1 p2
            else if p2.length = 4 then mkDateOut p2 p1 p0
            else none
        | _ => none

/-! ### Identification helpers and concrete test data -/

/-- The Tally indices referenced by the match entries of a state, in
emission order. -/
def tallyIdsOf (st : ReconState) : List Nat :=
  st.exactMatches.map (·.tallyIndex) ++ st.partialMatches.map (·.tallyIndex)

/-- Structural invariant of `reconcileData`'s state: the listed Tally
indices are pairwise distinct, coincide with the matched-Tally id set,
and stay below the Tally record count. -/
def ReconInv (n : Nat) (st : ReconState) : Prop :=
  (tallyIdsOf st).Nodup ∧
  (∀ j, j ∈ tallyIdsOf st ↔ j ∈ st.matchedTallyIds) ∧
  (∀ j ∈ st.matchedTallyIds, j < n)

/-- Scenario E GST row (`{A: "x"}`). -/
def rowEg : Rec := recOf [("A", .str "x")]

/-- Scenario E Tally row (`{B: "x"}`). -/
def rowEt : Rec := recOf [("B", .str "x")]

/-- Scenario E of the spec: two GST rows and two Tally rows all sharing
one key, mapped on a single column pair. -/
def scenarioE : ReconResult :=
  reconcileData [rowEg, rowEg] [rowEt, rowEt] ["A"] ["B"]

/-- A GST row agreeing with `row4t` on exactly 1 of 5 mapped columns. -/
def row4g : Rec :=
  recOf [("c1", .str "a"), ("c2", .str "b"), ("c3", .str "c"),
         ("c4", .str "d"), ("c5", .str "e")]

/-- A Tally row agreeing with `row4g` on exactly 1 of 5 mapped columns. -/
def row4t : Rec :=
  recOf [("d1", .str "a"), ("d2", .str "q"), ("d3", .str "r"),
         ("d4", .str "s"), ("d5", .str "t")]

/-- A 5-column run of `reconcileData` whose only candidate pair has 4
discrepancies. -/
def run4 : ReconResult :=
  reconcileData [row4g] [row4t] ["c1", "c2", "c3", "c4", "c5"]
    ["d1", "d2", "d3", "d4", "d5"]

/-- GST row for the route-matcher witnesses (monetary column). -/
def rowBg : Row := ⟨1, recOf [("taxable_value", .str "100")]⟩

/-- Tally row for the route-matcher witnesses (50-paise delta). -/
def rowBt : Row := ⟨2, recOf [("amt", .str "100.50")]⟩

/-- Route-matcher run on the single monetary column pair. -/
def runB : RouteSt :=
  routePartialPass [rowBg] [rowBt] ["taxable_value"] ["amt"] ∅ ∅

/-- The partial-match entry `runB` emits. -/
def entryB : RouteEntry :=
  ⟨rowBg, rowBt, 1, [⟨0, "taxable_value", "amt", "100", "100.50"⟩], 1/2, true⟩

/-- The 4-discrepancy partial-match entry `run4` emits. -/
def entry4 : PartialEntry :=
  ⟨0, row4g, 0, row4t,
   findDiscrepancies row4g row4t ["c1", "c2", "c3", "c4", "c5"]
     ["d1", "d2", "d3", "d4", "d5"]⟩

/-- Discrepancy count of a candidate pair in the route matcher. -/
def routeCnt (g : Row) (gc tc : List String) (t : Row) : Nat :=
  (routeDiscrepancies g t gc tc).length

/-- The eligible candidates of the best-match search: not yet consumed
and within the 1..3 discrepancy budget. -/
def eligTallies (g : Row) (gc tc : List String) (S : Finset Nat)
    (l : List Row) : List Row :=
  l.filter fun t =>
    decide (t.id ∉ S) && decide (1 ≤ routeCnt g gc tc t) &&
      decide (routeCnt g gc tc t ≤ 3)

/-- Specification of the best-candidate search over a processed prefix:
with no eligible candidate the state is the initial one; otherwise the
held best is an eligible candidate of minimal discrepancy count, and the
FIRST candidate of the prefix attaining that count (a later tie never
replaces it). -/
def BestSpec (g : Row) (gc tc : List String) (S : Finset Nat)
    (pre : List Row) (st : BestSt) : Prop :=
  (eligTallies g gc tc S pre = [] → st = bestInit) ∧
  (eligTallies g gc tc S pre ≠ [] →
    ∃ b, st.bestMatch = some b ∧
      st.bestDiscrepancies = routeCnt g gc tc b ∧
      st.discrepancyColumns = routeDiscrepancies g b gc tc ∧
      b ∈ eligTallies g gc tc S pre ∧
      (∀ u ∈ eligTallies g gc tc S pre,
        routeCnt g gc tc b ≤ routeCnt g gc tc u) ∧
      (eligTallies g gc tc S pre).find?
        (fun u => decide (routeCnt g gc tc u = routeCnt g gc tc b)) = some b)

/-- The absolute monetary deltas of a discrepancy list: for each
discrepancy on a monetary column, the absolute difference of the two
values parsed by the numeric strip-and-parse. -/
def monDeltas (discs : List RouteDisc) : List Rat :=
  (discs.filter fun d => isMonetaryCol d.gstColumn).map fun d =>
    |parseNum d.gstValue - parseNum d.tallyValue|

/-! ## Helper lemmas -/

theorem dropWhile_dropWhile (p : Char → Bool) (l : List Char) :
    (l.dropWhile p).dropWhile p = l.dropWhile p := by
  induction l with
  | nil => rfl
  | cons c t ih =>
      by_cases h : p c
      · simpa [List.dropWhile_cons, h] using ih
      · simp [List.dropWhile_cons, h]

theorem head?_dropWhile_false (p : Char → Bool) (l : List Char) (h : Char)
    (t : List Char) (hd : l.dropWhile p = h :: t) : p h = false := by
  induction l with
  | nil => simp at hd
  | cons c r ih =>
      by_cases hc : p c
      · exact ih (by simpa [List.dropWhile_cons, hc] using hd)
      · rw [List.dropWhile_cons, if_neg (by simpa using hc)] at hd
        cases hd
        simpa using hc

theorem getLast?_dropWhile (p : Char → Bool) (l : List Char)
    (h : l.dropWhile p ≠ []) : (l.dropWhile p).getLast? = l.getLast? := by
  induction l with
  | nil => simp at h
  | cons c r ih =>
      by_cases hc : p c
      · rw [List.dropWhile_cons, if_pos (by simpa using hc)] at h ⊢
        have hr : r ≠ [] := by
          intro he
          exact h (by simp [he])
        rw [ih h, List.getLast?_cons]
        cases r with
        | nil => exact absurd rfl hr
        | cons x xs =>
            cases hx : (x :: xs).getLast? with
            | none => simp at hx
            | some v => simp [hx]
      · rw [List.dropWhile_cons, if_neg (by simpa using hc)]

theorem dropWhile_eq_self_of_head? (p : Char → Bool) (l : List Char)
    (h : ∀ c, l.head? = some c → p c = false) : l.dropWhile p = l := by
  cases l with
  | nil => rfl
  | cons c t =>
      have := h c (by simp)
      simp [List.dropWhile_cons, this]

theorem trimChars_idem (l : List Char) : trimChars (trimChars l) = trimChars l := by
  unfold trimChars
  set a := l.dropWhile isJsWs with ha
  set b := a.reverse.dropWhile isJsWs with hb
  have hstep1 : b.reverse.dropWhile isJsWs = b.reverse := by
    apply dropWhile_eq_self_of_head? isJsWs
    intro c hc
    rw [List.head?_reverse] at hc
    have hbne : b ≠ [] := by
      intro he
      rw [he] at hc
      simp at hc
    rw [getLast?_dropWhile isJsWs a.reverse (by rw [← hb]; exact hbne)] at hc
    rw [List.getLast?_reverse] at hc
    cases hae : a with
    | nil =>
        rw [hae] at hc
        simp at hc
    | cons x xs =>
        rw [hae] at hc
        simp at hc
        subst hc
        exact head?_dropWhile_false isJsWs l _ xs (by rw [← ha, hae])
  rw [hstep1, List.reverse_reverse]
  rw [hb, dropWhile_dropWhile]

theorem jsTrim_idem (s : String) : jsTrim (jsTrim s) = jsTrim s := by
  unfold jsTrim
  exact congrArg String.mk (trimChars_idem s.data)

/-! ### Invariant lemmas for `reconcileData` -/

theorem fst_lt_of_mem_enum {α : Type} {p : Nat × α} {l : List α}
    (h : p ∈ l.enum) : p.1 < l.length := by
  obtain ⟨i, x⟩ := p
  have := List.mem_enumFrom (by simpa [List.enum] using h)
  omega

theorem reconInv_init (n : Nat) : ReconInv n initState := by
  refine ⟨by simp [tallyIdsOf, initState], ?_, ?_⟩
  · intro j
    simp [tallyIdsOf, initState]
  · intro j hj
    simp [initState] at hj

theorem tids_exactPush (st : ReconState) (e : ExactEntry)
    (h0 : st.partialMatches = []) :
    tallyIdsOf ({ st with
          exactMatches := st.exactMatches ++ [e]
          matchedTallyIds := insert e.tallyIndex st.matchedTallyIds
          matchedGstIds := insert e.gstIndex st.matchedGstIds }) =
      tallyIdsOf st ++ [e.tallyIndex] := by
  simp [tallyIdsOf, h0]

theorem tids_partialPush (st : ReconState) (e : PartialEntry) :
    tallyIdsOf ({ st with
          partialMatches := st.partialMatches ++ [e]
          matchedTallyIds := insert e.tallyIndex st.matchedTallyIds
          matchedGstIds := insert e.gstIndex st.matchedGstIds }) =
      tallyIdsOf st ++ [e.tallyIndex] := by
  simp [tallyIdsOf]

theorem reconInv_push (n : Nat) (st st' : ReconState) (j : Nat)
    (hinv : ReconInv n st) (hj : j ∉ st.matchedTallyIds) (hjn : j < n)
    (htids : tallyIdsOf st' = tallyIdsOf st ++ [j])
    (hmt : st'.matchedTallyIds = insert j st.matchedTallyIds) :
    ReconInv n st' := by
  obtain ⟨hnd, hiff, hlt⟩ := hinv
  refine ⟨?_, ?_, ?_⟩
  · rw [htids, List.nodup_append]
    refine ⟨hnd, List.nodup_singleton j, ?_⟩
    intro a ha hb
    rw [List.mem_singleton] at hb
    subst hb
    exact hj ((hiff a).1 ha)
  · intro a
    rw [htids, hmt, List.mem_append, List.mem_singleton, Finset.mem_insert]
    constructor
    · rintro (h | h)
      · exact Or.inr ((hiff a).1 h)
      · exact Or.inl h
    · rintro (h | h)
      · exact Or.inr h
      · exact Or.inl ((hiff a).2 h)
  · intro a ha
    rw [hmt, Finset.mem_insert] at ha
    rcases ha with h | h
    · exact h ▸ hjn
    · exact hlt a h

theorem exactInner_inv (n i : Nat) (g : Rec) :
    ∀ (cands : List (Nat × Rec)), (∀ p ∈ cands, p.1 < n) →
      ∀ st : ReconState, st.partialMatches = [] → ReconInv n st →
        (exactInner i g cands st).partialMatches = [] ∧
        ReconInv n (exactInner i g cands st) := by
  intro cands
  induction cands with
  | nil =>
      intro _ st h0 h1
      exact ⟨h0, h1⟩
  | cons p rest ih =>
      intro hc st h0 h1
      have hstep : exactInner i g (p :: rest) st =
          exactInner i g rest
            (if p.1 ∈ st.matchedTallyIds then st
             else
               { st with
                 exactMatches := st.exactMatches ++ [⟨i, g, p.1, p.2⟩]
                 matchedTallyIds := insert p.1 st.matchedTallyIds
                 matchedGstIds := insert i st.matchedGstIds }) := by
        simp [exactInner]
      rw [hstep]
      by_cases hp : p.1 ∈ st.matchedTallyIds
      · rw [if_pos hp]
        exact ih (fun q hq => hc q (List.mem_cons_of_mem p hq)) st h0 h1
      · rw [if_neg hp]
        refine ih (fun q hq => hc q (List.mem_cons_of_mem p hq)) _ h0 ?_
        exact reconInv_push n st _ p.1 h1 hp (hc p (List.mem_cons_self p rest))
          (tids_exactPush st ⟨i, g, p.1, p.2⟩ h0) rfl

theorem exactFold_inv (n : Nat) (tallyData : List Rec)
    (gc tc : List String) (htn : n = tallyData.length) :
    ∀ (l : List (Nat × Rec)) (st : ReconState),
      st.partialMatches = [] → ReconInv n st →
      (l.foldl
        (fun st p =>
          exactInner p.1 p.2 (tallyBucket tallyData tc (createKey p.2 gc)) st)
        st).partialMatches = [] ∧
      ReconInv n (l.foldl
        (fun st p =>
          exactInner p.1 p.2 (tallyBucket tallyData tc (createKey p.2 gc)) st)
        st) := by
  intro l
  induction l with
  | nil =>
      intro st h0 h1
      exact ⟨h0, h1⟩
  | cons p rest ih =>
      intro st h0 h1
      rw [List.foldl_cons]
      have hc : ∀ q ∈ tallyBucket tallyData tc (createKey p.2 gc), q.1 < n := by
        intro q hq
        rw [tallyBucket, List.mem_filter] at hq
        exact htn ▸ fst_lt_of_mem_enum hq.1
      obtain ⟨h0', h1'⟩ := exactInner_inv n p.1 p.2 _ hc st h0 h1
      exact ih _ h0' h1'

theorem exactPass_inv (gstData tallyData : List Rec) (gc tc : List String) :
    (exactPass gstData tallyData gc tc).partialMatches = [] ∧
    ReconInv tallyData.length (exactPass gstData tallyData gc tc) :=
  exactFold_inv tallyData.length tallyData gc tc rfl gstData.enum initState
    rfl (reconInv_init _)

theorem partialInner_inv (n i : Nat) (g : Rec) (tallyData : List Rec)
    (gc tc : List String) (htn : n = tallyData.length)
    (st : ReconState) (h1 : ReconInv n st) :
    ReconInv n (partialInner i g tallyData gc tc st) := by
  rw [partialInner]
  have hb : ∀ p ∈ tallyData.enum, p.1 < n := fun p hp =>
    htn ▸ fst_lt_of_mem_enum hp
  revert st h1
  generalize tallyData.enum = l at hb ⊢
  induction l with
  | nil =>
      intro st h1
      exact h1
  | cons p rest ih =>
      intro st h1
      rw [List.foldl_cons]
      have hrest : ∀ q ∈ rest, q.1 < n := fun q hq =>
        hb q (List.mem_cons_of_mem p hq)
      by_cases hp : p.1 ∈ st.matchedTallyIds
      · simp only [if_pos hp]
        exact ih hrest _ h1
      · simp only [if_neg hp]
        by_cases hcond :
            0 < (findDiscrepancies g p.2 gc tc).length ∧
            (findDiscrepancies g p.2 gc tc).length < gc.length
        · simp only [if_pos hcond]
          refine ih hrest _ ?_
          exact reconInv_push n st _ p.1 h1 hp (hb p (List.mem_cons_self p rest))
            (tids_partialPush st ⟨i, g, p.1, p.2, findDiscrepancies g p.2 gc tc⟩) rfl
        · simp only [if_neg hcond]
          exact ih hrest _ h1

theorem partialPass_inv (gstData tallyData : List Rec) (gc tc : List String)
    (st : ReconState) (h1 : ReconInv tallyData.length st) :
    ReconInv tallyData.length (partialPass gstData tallyData gc tc st) := by
  rw [partialPass]
  revert st h1
  induction gstData.enum with
  | nil =>
      intro st h1
      exact h1
  | cons p rest ih =>
      intro st h1
      rw [List.foldl_cons]
      by_cases hp : p.1 ∈ st.matchedGstIds
      · simp only [if_pos hp]
        exact ih _ h1
      · simp only [if_neg hp]
        exact ih _ (partialInner_inv _ p.1 p.2 tallyData gc tc rfl st h1)

theorem reconcile_inv (gstData tallyData : List Rec) (gc tc : List String) :
    ReconInv tallyData.length
      (partialPass gstData tallyData gc tc
        (exactPass gstData tallyData gc tc)) :=
  partialPass_inv gstData tallyData gc tc _
    (exactPass_inv gstData tallyData gc tc).2

theorem countP_range_mem :
    ∀ (n : ℕ) (S : Finset ℕ), (∀ j ∈ S, j < n) →
      (List.range n).countP (fun j => decide (j ∈ S)) = S.card := by
  intro n
  induction n with
  | zero =>
      intro S hS
      have hempty : S = ∅ :=
        Finset.eq_empty_of_forall_not_mem fun j hj =>
          absurd (hS j hj) (Nat.not_lt_zero j)
      simp [hempty]
  | succ n ih =>
      intro S hS
      rw [List.range_succ, List.countP_append]
      by_cases hn : n ∈ S
      · have h1 : (List.range n).countP (fun j => decide (j ∈ S)) =
            (List.range n).countP (fun j => decide (j ∈ S.erase n)) := by
          apply List.countP_congr
          intro j hj
          rw [List.mem_range] at hj
          simp [Finset.mem_erase, Nat.ne_of_lt hj]
        have herase : ∀ j ∈ S.erase n, j < n := by
          intro j hj
          rw [Finset.mem_erase] at hj
          have := hS j hj.2
          omega
        have hcard : 1 ≤ S.card := Finset.card_pos.mpr ⟨n, hn⟩
        rw [h1, ih (S.erase n) herase, Finset.card_erase_of_mem hn]
        simp only [List.countP_cons, List.countP_nil, hn]
        simp
        omega
      · have herase : ∀ j ∈ S, j < n := by
          intro j hj
          have h1 := hS j hj
          have h2 : j ≠ n := fun he => hn (he ▸ hj)
          omega
        rw [ih S herase]
        simp only [List.countP_cons, List.countP_nil, hn]
        simp

theorem filter_enum_not_mem_length {α : Type} (l : List α) (S : Finset ℕ)
    (hS : ∀ j ∈ S, j < l.length) :
    (l.enum.filter fun p => p.1 ∉ S).length = l.length - S.card := by
  rw [← List.countP_eq_length_filter]
  have h1 : l.enum.countP (fun p => decide (p.1 ∉ S)) =
      (l.enum.map Prod.fst).countP (fun j => decide (j ∉ S)) := by
    rw [List.countP_map]
    rfl
  rw [h1, List.enum_map_fst]
  have h2 := List.length_eq_countP_add_countP
    (fun j => decide (j ∈ S)) (List.range l.length)
  rw [List.length_range] at h2
  have h3 : (List.range l.length).countP
      (fun a => decide (¬(decide (a ∈ S) = true))) =
      (List.range l.length).countP (fun j => decide (j ∉ S)) := by
    apply List.countP_congr
    intro x _
    simp
  rw [countP_range_mem l.length S hS] at h2
  omega

theorem tids_length_eq_card (n : Nat) (st : ReconState) (h : ReconInv n st) :
    (tallyIdsOf st).length = st.matchedTallyIds.card := by
  have hfin : (tallyIdsOf st).toFinset = st.matchedTallyIds := by
    apply Finset.ext
    intro j
    rw [List.mem_toFinset]
    exact h.2.1 j
  rw [← hfin]
  exact (List.toFinset_card_of_nodup h.1).symm

theorem matched_card_le (n : Nat) (st : ReconState) (h : ReconInv n st) :
    st.matchedTallyIds.card ≤ n := by
  have hsub : st.matchedTallyIds ⊆ Finset.range n := fun j hj =>
    Finset.mem_range.mpr (h.2.2 j hj)
  simpa using Finset.card_le_card hsub

/-! ### Partial-entry bound invariants -/

theorem partialInner_entries (i : Nat) (g : Rec) (tallyData : List Rec)
    (gc tc : List String) (P : PartialEntry → Prop)
    (hP : ∀ j t, P ⟨i, g, j, t, findDiscrepancies g t gc tc⟩ ∨
      ¬(0 < (findDiscrepancies g t gc tc).length ∧
        (findDiscrepancies g t gc tc).length < gc.length)) :
    ∀ (st : ReconState), (∀ e ∈ st.partialMatches, P e) →
      ∀ e ∈ (partialInner i g tallyData gc tc st).partialMatches, P e := by
  intro st h
  rw [partialInner]
  revert h
  revert st
  generalize tallyData.enum = l
  induction l with
  | nil =>
      intro st h e he
      exact h e he
  | cons p rest ih =>
      intro st h
      rw [List.foldl_cons]
      by_cases hp : p.1 ∈ st.matchedTallyIds
      · simp only [if_pos hp]
        exact ih st h
      · simp only [if_neg hp]
        by_cases hcond :
            0 < (findDiscrepancies g p.2 gc tc).length ∧
            (findDiscrepancies g p.2 gc tc).length < gc.length
        · simp only [if_pos hcond]
          apply ih
          intro e he
          simp only [List.mem_append, List.mem_singleton] at he
          rcases he with he | he
          · exact h e he
          · subst he
            rcases hP p.1 p.2 with hg | hg
            · exact hg
            · exact absurd hcond hg
        · simp only [if_neg hcond]
          exact ih st h

theorem partialPass_entries (gstData tallyData : List Rec)
    (gc tc : List String) (P : PartialEntry → Prop)
    (hP : ∀ i g j t, P ⟨i, g, j, t, findDiscrepancies g t gc tc⟩ ∨
      ¬(0 < (findDiscrepancies g t gc tc).length ∧
        (findDiscrepancies g t gc tc).length < gc.length)) :
    ∀ (st : ReconState), (∀ e ∈ st.partialMatches, P e) →
      ∀ e ∈ (partialPass gstData tallyData gc tc st).partialMatches, P e := by
  intro st h
  rw [partialPass]
  revert h
  revert st
  generalize gstData.enum = l
  induction l with
  | nil =>
      intro st h e he
      exact h e he
  | cons p rest ih =>
      intro st h
      rw [List.foldl_cons]
      by_cases hp : p.1 ∈ st.matchedGstIds
      · simp only [if_pos hp]
        exact ih st h
      · simp only [if_neg hp]
        exact ih _ (partialInner_entries p.1 p.2 tallyData gc tc P (hP p.1 p.2) st h)

/-! ### Route-matcher bound invariants -/

theorem findBest_bound (g : Row) (gc tc : List String)
    (matchedTally : Finset Nat) (tallyData : List Row) :
    ∀ t, (findBest g gc tc matchedTally tallyData).bestMatch = some t →
      1 ≤ (findBest g gc tc matchedTally tallyData).bestDiscrepancies ∧
      (findBest g gc tc matchedTally tallyData).bestDiscrepancies ≤ 3 ∧
      (findBest g gc tc matchedTally tallyData).discrepancyColumns =
        routeDiscrepancies g t gc tc ∧
      (findBest g gc tc matchedTally tallyData).bestDiscrepancies =
        (routeDiscrepancies g t gc tc).length := by
  rw [findBest]
  have hinit : ∀ t, (bestInit).bestMatch = some t →
      1 ≤ bestInit.bestDiscrepancies ∧ bestInit.bestDiscrepancies ≤ 3 ∧
      bestInit.discrepancyColumns = routeDiscrepancies g t gc tc ∧
      bestInit.bestDiscrepancies = (routeDiscrepancies g t gc tc).length := by
    intro t ht
    simp [bestInit] at ht
  revert hinit
  generalize bestInit = st
  induction tallyData generalizing st with
  | nil =>
      intro hst
      exact hst
  | cons u rest ih =>
      intro hst
      rw [List.foldl_cons]
      apply ih
      intro t ht
      rw [considerTally] at ht
      by_cases hu : u.id ∈ matchedTally
      · rw [if_pos hu] at ht
        rw [considerTally, if_pos hu]
        exact hst t ht
      · rw [if_neg hu] at ht
        rw [considerTally, if_neg hu]
        by_cases hcond : 1 ≤ (routeDiscrepancies g u gc tc).length ∧
            (routeDiscrepancies g u gc tc).length ≤ 3 ∧
            (routeDiscrepancies g u gc tc).length < st.bestDiscrepancies
        · rw [if_pos hcond] at ht
          rw [if_pos hcond]
          simp only [Option.some.injEq] at ht
          subst ht
          exact ⟨hcond.1, hcond.2.1, rfl, rfl⟩
        · rw [if_neg hcond] at ht
          rw [if_neg hcond]
          exact hst t ht

theorem routePass_entries (gstData tallyData : List Row)
    (gc tc : List String) (g0 t0 : Finset Nat) (P : RouteEntry → Prop)
    (hP : ∀ (g t : Row) (S : Finset Nat),
      (findBest g gc tc S tallyData).bestMatch = some t →
      (findBest g gc tc S tallyData).bestDiscrepancies ≤ 3 →
      P ⟨g, t, (findBest g gc tc S tallyData).bestDiscrepancies,
          (findBest g gc tc S tallyData).discrepancyColumns,
          (severityOf (findBest g gc tc S tallyData).discrepancyColumns).1,
          !(severityOf (findBest g gc tc S tallyData).discrepancyColumns).2 &&
            decide (0 < (severityOf (findBest g gc tc S tallyData).discrepancyColumns).1)⟩) :
    ∀ e ∈ (routePartialPass gstData tallyData gc tc g0 t0).partialMatches, P e := by
  rw [routePartialPass]
  have hinit : ∀ e ∈ (⟨[], g0, t0⟩ : RouteSt).partialMatches, P e := by
    intro e he
    simp at he
  revert hinit
  generalize (⟨[], g0, t0⟩ : RouteSt) = st
  induction gstData generalizing st with
  | nil =>
      intro h e he
      exact h e he
  | cons g rest ih =>
      intro h
      rw [List.foldl_cons]
      apply ih
      rw [routeStep]
      by_cases hg : g.id ∈ st.matchedGstIds
      · simp only [if_pos hg]
        exact h
      · simp only [if_neg hg]
        cases hb : (findBest g gc tc st.matchedTallyIds tallyData).bestMatch with
        | none =>
            exact h
        | some t =>
            by_cases h3 : (findBest g gc tc st.matchedTallyIds tallyData).bestDiscrepancies ≤ 3
            · simp only [if_pos h3]
              intro e he
              simp only [List.mem_append, List.mem_singleton] at he
              rcases he with he | he
              · exact h e he
              · subst he
                exact hP g t st.matchedTallyIds hb h3
            · simp only [if_neg h3]
              exact h

/-! ### Best-candidate search characterization (route matcher) -/

theorem bestSpec_nil (g : Row) (gc tc : List String) (S : Finset Nat) :
    BestSpec g gc tc S [] bestInit := by
  constructor
  · intro _
    rfl
  · intro h
    exact absurd rfl h

theorem bestSpec_step (g : Row) (gc tc : List String) (S : Finset Nat)
    (pre : List Row) (st : BestSt) (u : Row)
    (h : BestSpec g gc tc S pre st) :
    BestSpec g gc tc S (pre ++ [u]) (considerTally g gc tc S st u) := by
  have hE' : eligTallies g gc tc S (pre ++ [u]) =
      eligTallies g gc tc S pre ++
        (if decide (u.id ∉ S) && decide (1 ≤ routeCnt g gc tc u) &&
            decide (routeCnt g gc tc u ≤ 3) then [u] else []) := by
    rw [eligTallies, List.filter_append]
    congr 1
    simp [List.filter_cons]
  by_cases hu : u.id ∈ S
  · have hpred : (decide (u.id ∉ S) && decide (1 ≤ routeCnt g gc tc u) &&
        decide (routeCnt g gc tc u ≤ 3)) = false := by
      simp [hu]
    have hstu : considerTally g gc tc S st u = st := by
      rw [considerTally, if_pos hu]
    rw [hstu]
    rw [hpred, if_neg (by simp)] at hE'
    rw [List.append_nil] at hE'
    exact ⟨fun he => h.1 (hE' ▸ he), fun he => by
      obtain ⟨b, hb⟩ := h.2 (fun hn => he (hE'.trans hn))
      exact ⟨b, hb.1, hb.2.1, hb.2.2.1, hE' ▸ hb.2.2.2.1,
        fun v hv => hb.2.2.2.2.1 v (hE' ▸ hv), hE' ▸ hb.2.2.2.2.2⟩⟩
  · have hstu : considerTally g gc tc S st u =
        (if 1 ≤ routeCnt g gc tc u ∧ routeCnt g gc tc u ≤ 3 ∧
            routeCnt g gc tc u < st.bestDiscrepancies then
          (⟨some u, routeCnt g gc tc u, routeDiscrepancies g u gc tc⟩ : BestSt)
        else st) := by
      rw [considerTally, if_neg hu]
      rfl
    by_cases hbud : 1 ≤ routeCnt g gc tc u ∧ routeCnt g gc tc u ≤ 3
    · -- u is eligible
      have hpred : (decide (u.id ∉ S) && decide (1 ≤ routeCnt g gc tc u) &&
          decide (routeCnt g gc tc u ≤ 3)) = true := by
        simp [hu, hbud.1, hbud.2]
      rw [hpred, if_pos rfl] at hE'
      rcases Classical.em (eligTallies g gc tc S pre = []) with hE | hE
      · -- first eligible candidate: replaces the initial state
        have hst : st = bestInit := h.1 hE
        have hcond : 1 ≤ routeCnt g gc tc u ∧ routeCnt g gc tc u ≤ 3 ∧
            routeCnt g gc tc u < st.bestDiscrepancies := by
          rw [hst]
          exact ⟨hbud.1, hbud.2, by
            show routeCnt g gc tc u < 999
            omega⟩
        rw [hstu, if_pos hcond]
        constructor
        · intro hnil
          rw [hE'] at hnil
          simp [hE] at hnil
        · intro _
          refine ⟨u, rfl, rfl, rfl, ?_, ?_, ?_⟩
          · rw [hE', hE]
            simp
          · intro v hv
            rw [hE', hE] at hv
            simp at hv
            subst hv
            exact le_refl _
          · rw [hE', hE]
            simp
      · -- a best candidate is already held
        obtain ⟨b, hbm, hbd, hbc, hbmem, hbmin, hbfind⟩ := h.2 hE
        by_cases hlt : routeCnt g gc tc u < routeCnt g gc tc b
        · -- strictly better: replace
          have hcond : 1 ≤ routeCnt g gc tc u ∧ routeCnt g gc tc u ≤ 3 ∧
              routeCnt g gc tc u < st.bestDiscrepancies := by
            rw [hbd]
            exact ⟨hbud.1, hbud.2, hlt⟩
          rw [hstu, if_pos hcond]
          constructor
          · intro hnil
            rw [hE'] at hnil
            exact absurd (List.append_eq_nil.mp hnil).1 hE
          · intro _
            refine ⟨u, rfl, rfl, rfl, ?_, ?_, ?_⟩
            · rw [hE']
              exact List.mem_append_right _ (List.mem_singleton_self u)
            · intro v hv
              rw [hE'] at hv
              rcases List.mem_append.mp hv with hv | hv
              · exact le_trans (le_of_lt hlt) (hbmin v hv)
              · rw [List.mem_singleton] at hv
                subst hv
                exact le_refl _
            · rw [hE', List.find?_append]
              have hnone : (eligTallies g gc tc S pre).find?
                  (fun v => decide (routeCnt g gc tc v = routeCnt g gc tc u)) =
                  none := by
                rw [List.find?_eq_none]
                intro v hv
                simp only [decide_eq_true_eq]
                have := hbmin v hv
                omega
              rw [hnone]
              simp
        · -- not strictly better: keep the held best
          have hcond : ¬(1 ≤ routeCnt g gc tc u ∧ routeCnt g gc tc u ≤ 3 ∧
              routeCnt g gc tc u < st.bestDiscrepancies) := by
            rw [hbd]
            intro hc
            exact hlt hc.2.2
          rw [hstu, if_neg hcond]
          constructor
          · intro hnil
            rw [hE'] at hnil
            exact absurd (List.append_eq_nil.mp hnil).1 hE
          · intro _
            refine ⟨b, hbm, hbd, hbc, ?_, ?_, ?_⟩
            · rw [hE']
              exact List.mem_append_left _ hbmem
            · intro v hv
              rw [hE'] at hv
              rcases List.mem_append.mp hv with hv | hv
              · exact hbmin v hv
              · rw [List.mem_singleton] at hv
                subst hv
                omega
            · rw [hE', List.find?_append, hbfind]
              simp
    · -- u is over or under budget: not eligible, state unchanged
      have hpred : (decide (u.id ∉ S) && decide (1 ≤ routeCnt g gc tc u) &&
          decide (routeCnt g gc tc u ≤ 3)) = false := by
        rcases Decidable.not_and_iff_or_not.mp hbud with hb1 | hb2
        · simp [hb1]
        · simp [hb2]
      have hcond : ¬(1 ≤ routeCnt g gc tc u ∧ routeCnt g gc tc u ≤ 3 ∧
          routeCnt g gc tc u < st.bestDiscrepancies) := by
        intro hc
        exact hbud ⟨hc.1, hc.2.1⟩
      rw [hstu, if_neg hcond]
      rw [hpred, if_neg (by simp)] at hE'
      rw [List.append_nil] at hE'
      exact ⟨fun he => h.1 (hE' ▸ he), fun he => by
        obtain ⟨b, hb⟩ := h.2 (fun hn => he (hE'.trans hn))
        exact ⟨b, hb.1, hb.2.1, hb.2.2.1, hE' ▸ hb.2.2.2.1,
          fun v hv => hb.2.2.2.2.1 v (hE' ▸ hv), hE' ▸ hb.2.2.2.2.2⟩⟩

theorem bestFold_spec (g : Row) (gc tc : List String) (S : Finset Nat) :
    ∀ (l pre : List Row) (st : BestSt), BestSpec g gc tc S pre st →
      BestSpec g gc tc S (pre ++ l)
        (l.foldl (considerTally g gc tc S) st) := by
  intro l
  induction l with
  | nil =>
      intro pre st h
      simpa using h
  | cons u rest ih =>
      intro pre st h
      rw [List.foldl_cons,
        show pre ++ u :: rest = (pre ++ [u]) ++ rest by simp]
      exact ih (pre ++ [u]) _ (bestSpec_step g gc tc S pre st u h)

/-! ### Severity-scan characterization -/

theorem severityFold_pair (discs : List RouteDisc) :
    ∀ (a : Rat) (b : Bool),
      discs.foldl severityStep (a, b) =
        ((monDeltas discs).foldl max a,
         b || (monDeltas discs).any fun x => decide (1 ≤ x)) := by
  induction discs with
  | nil =>
      intro a b
      simp [monDeltas]
  | cons d rest ih =>
      intro a b
      rw [List.foldl_cons]
      by_cases hm : isMonetaryCol d.gstColumn
      · have hstep : severityStep (a, b) d =
            (max a |parseNum d.gstValue - parseNum d.tallyValue|,
             b || decide (1 ≤ |parseNum d.gstValue - parseNum d.tallyValue|)) := by
          rw [severityStep, if_pos hm]
        have hmon : monDeltas (d :: rest) =
            |parseNum d.gstValue - parseNum d.tallyValue| :: monDeltas rest := by
          rw [monDeltas, List.filter_cons]
          simp only [hm, if_pos]
          rw [List.map_cons]
          rfl
        rw [hstep, ih, hmon, List.foldl_cons, List.any_cons, Bool.or_assoc]
      · have hstep : severityStep (a, b) d = (a, b) := by
          rw [severityStep, if_neg hm]
        have hmon : monDeltas (d :: rest) = monDeltas rest := by
          rw [monDeltas, List.filter_cons]
          simp only [hm, if_neg]
          rfl
        rw [hstep, ih, hmon]

theorem severityOf_eq (discs : List RouteDisc) :
    severityOf discs =
      ((monDeltas discs).foldl max 0,
       (monDeltas discs).any fun x => decide (1 ≤ x)) := by
  rw [severityOf, severityFold_pair]
  simp

theorem le_foldl_max (l : List Rat) : ∀ a : Rat, a ≤ l.foldl max a := by
  induction l with
  | nil =>
      intro a
      simp
  | cons x t ih =>
      intro a
      rw [List.foldl_cons]
      exact le_trans (le_max_left a x) (ih (max a x))

theorem mem_le_foldl_max (l : List Rat) : ∀ (a : Rat), ∀ x ∈ l, x ≤ l.foldl max a := by
  induction l with
  | nil =>
      intro a x hx
      simp at hx
  | cons y t ih =>
      intro a x hx
      rw [List.foldl_cons]
      rcases List.mem_cons.mp hx with h | h
      · subst h
        exact le_trans (le_max_right a x) (le_foldl_max t (max a x))
      · exact ih (max a y) x h

theorem foldl_max_mem (l : List Rat) : ∀ a : Rat, l.foldl max a = a ∨ l.foldl max a ∈ l := by
  induction l with
  | nil =>
      intro a
      exact Or.inl rfl
  | cons x t ih =>
      intro a
      rw [List.foldl_cons]
      rcases ih (max a x) with h | h
      · rcases max_choice a x with hm | hm
        · exact Or.inl (h.trans hm)
        · exact Or.inr (by rw [h, hm]; exact List.mem_cons_self x t)
      · exact Or.inr (List.mem_cons_of_mem x h)

theorem severity_spec (cols : List RouteDisc) :
    (severityOf cols).1 = (monDeltas cols).foldl max 0 ∧
    ((!(severityOf cols).2 && decide (0 < (severityOf cols).1)) = true ↔
      (∀ x ∈ monDeltas cols, x < 1) ∧ ∃ x ∈ monDeltas cols, x ≠ 0) ∧
    (monDeltas cols = [] →
      (severityOf cols).1 = 0 ∧
      (!(severityOf cols).2 && decide (0 < (severityOf cols).1)) = false) := by
  have hnn : ∀ x ∈ monDeltas cols, 0 ≤ x := by
    intro x hx
    rw [monDeltas, List.mem_map] at hx
    obtain ⟨d, -, rfl⟩ := hx
    exact abs_nonneg _
  rw [severityOf_eq]
  dsimp only
  refine ⟨rfl, ?_, ?_⟩
  · constructor
    · intro h
      rw [Bool.and_eq_true, Bool.not_eq_true'] at h
      have hall : ∀ x ∈ monDeltas cols, x < 1 := by
        intro x hx
        by_contra hge
        have hany : ((monDeltas cols).any fun x => decide (1 ≤ x)) = true :=
          List.any_eq_true.mpr ⟨x, hx, decide_eq_true (not_lt.mp hge)⟩
        rw [h.1] at hany
        exact absurd hany (by simp)
      refine ⟨hall, ?_⟩
      have hpos : 0 < (monDeltas cols).foldl max 0 := of_decide_eq_true h.2
      rcases foldl_max_mem (monDeltas cols) 0 with hm | hm
      · rw [hm] at hpos
        exact absurd hpos (lt_irrefl 0)
      · exact ⟨_, hm, ne_of_gt hpos⟩
    · rintro ⟨hall, x, hx, hxne⟩
      rw [Bool.and_eq_true, Bool.not_eq_true']
      constructor
      · rcases Bool.eq_false_or_eq_true
            ((monDeltas cols).any fun x => decide (1 ≤ x)) with ht | hf
        · obtain ⟨y, hy, hy1⟩ := List.any_eq_true.mp ht
          have hylt := hall y hy
          rw [decide_eq_true_eq] at hy1
          exact absurd hy1 (not_le.mpr hylt)
        · exact hf
      · have hx0 : 0 < x := lt_of_le_of_ne (hnn x hx) (Ne.symm hxne)
        have hle : x ≤ (monDeltas cols).foldl max 0 :=
          mem_le_foldl_max _ 0 x hx
        exact decide_eq_true (lt_of_lt_of_le hx0 hle)
  · intro hnil
    rw [hnil]
    simp

/-! ## Claim C6 — monetary severity classification -/

/-- C6: every partial match the route matcher emits carries
`maxDiscrepancy` equal to the maximum absolute delta over the monetary
discrepancies (0 when there is none, with both values parsed after
stripping everything but digits, dot and minus), and `isMinor` is true
exactly when all monetary deltas are below 1 and at least one is
nonzero — in particular a delta of 1 or more, or the absence of monetary
discrepancies, forces `isMinor = false`. -/
theorem claim6_thm (gstData tallyData : List Row) (gc tc : List String)
    (g0 t0 : Finset Nat) :
    ∀ e ∈ (routePartialPass gstData tallyData gc tc g0 t0).partialMatches,
      e.maxDiscrepancy = (monDeltas e.discrepancyColumns).foldl max 0 ∧
      (e.isMinor = true ↔
        (∀ x ∈ monDeltas e.discrepancyColumns, x < 1) ∧
        ∃ x ∈ monDeltas e.discrepancyColumns, x ≠ 0) ∧
      (monDeltas e.discrepancyColumns = [] →
        e.maxDiscrepancy = 0 ∧ e.isMinor = false) := by
  apply routePass_entries
  intro g t S _ _
  exact severity_spec _

/-- C6 witness: the maximum-delta equation of `claim6_thm` at the
concrete emitted entry `entryB`. -/
theorem claim6_witness :
    entryB.maxDiscrepancy = (monDeltas entryB.discrepancyColumns).foldl max 0 :=
  (claim6_thm [rowBg] [rowBt] ["taxable_value"] ["amt"] ∅ ∅ entryB (by
    rw [show (routePartialPass [rowBg] [rowBt] ["taxable_value"] ["amt"]
        ∅ ∅).partialMatches = [entryB] from by with_unfolding_all rfl]
    exact List.mem_singleton_self entryB)).1

/-! ## Claim C5 — best-candidate selection and tie-breaking -/

/-- C5: for one remaining GST record, the best-candidate search of the
route matcher considers exactly the not-yet-consumed Tally records whose
discrepancy count lies in the 1..3 budget; if none exists it returns the
initial state, otherwise it returns an eligible candidate of minimal
discrepancy count — the first one in input order reaching that count, a
later candidate with an equal count never replacing it. -/
theorem claim5_thm (g : Row) (gc tc : List String) (S : Finset Nat)
    (tallyData : List Row) :
    (eligTallies g gc tc S tallyData = [] →
      findBest g gc tc S tallyData = bestInit) ∧
    (eligTallies g gc tc S tallyData ≠ [] →
      ∃ b, (findBest g gc tc S tallyData).bestMatch = some b ∧
        (findBest g gc tc S tallyData).bestDiscrepancies =
          routeCnt g gc tc b ∧
        (findBest g gc tc S tallyData).discrepancyColumns =
          routeDiscrepancies g b gc tc ∧
        b ∈ eligTallies g gc tc S tallyData ∧
        (∀ u ∈ eligTallies g gc tc S tallyData,
          routeCnt g gc tc b ≤ routeCnt g gc tc u) ∧
        (eligTallies g gc tc S tallyData).find?
          (fun u => decide (routeCnt g gc tc u = routeCnt g gc tc b)) =
          some b) := by
  have h := bestFold_spec g gc tc S tallyData [] bestInit
    (bestSpec_nil g gc tc S)
  rw [List.nil_append] at h
  exact h

/-- C5 witness: the search over the single eligible candidate `rowBt`
holds it as best with its discrepancy count of 1. -/
theorem claim5_witness :
    (findBest rowBg ["taxable_value"] ["amt"] ∅ [rowBt]).bestMatch =
      some rowBt ∧
    (findBest rowBg ["taxable_value"] ["amt"] ∅ [rowBt]).bestDiscrepancies
      = 1 := by
  obtain ⟨b, hb, hcnt, -, -, -, -⟩ :=
    (claim5_thm rowBg ["taxable_value"] ["amt"] ∅ [rowBt]).2 (by
      rw [show eligTallies rowBg ["taxable_value"] ["amt"] ∅ [rowBt] =
          [rowBt] from by with_unfolding_all rfl]
      exact List.cons_ne_nil _ _)
  have hbv : b = rowBt := by
    have h2 : (findBest rowBg ["taxable_value"] ["amt"] ∅
        [rowBt]).bestMatch = some rowBt := by with_unfolding_all rfl
    rw [h2] at hb
    exact (Option.some.inj hb).symm
  subst hbv
  refine ⟨hb, ?_⟩
  rw [hcnt]
  with_unfolding_all rfl

/-! ## Claim C1 — exact-pass duplicate-key pairing -/

/-- C1 counterexample: in Scenario E (two GST rows and two Tally rows all
sharing one key) `reconcileData` pairs the FIRST GST row with BOTH Tally
rows and leaves the second GST row unmatched, instead of pairing 1:1. -/
theorem claim1_counterexample :
    scenarioE.exactMatches.map (fun e => (e.gstIndex, e.tallyIndex)) =
      [(0, 0), (0, 1)] ∧
    scenarioE.gstMismatches.map (fun e => e.index) = [1] := by
  constructor <;> decide

/-- C1 (amended): in the exact pass each Tally record is consumed by at
most one match entry, but a GST record takes EVERY not-yet-consumed Tally
record sharing its key; in Scenario E the two exact matches both contain
the first GST row, and the second GST row ends in `gstMismatches`. -/
theorem claim1_thm :
    (∀ (gstData tallyData : List Rec) (gc tc : List String),
      ((reconcileData gstData tallyData gc tc).exactMatches.map
        (fun e => e.tallyIndex)).Nodup) ∧
    scenarioE.exactMatches.map (fun e => (e.gstIndex, e.tallyIndex)) =
      [(0, 0), (0, 1)] ∧
    scenarioE.partialMatches.length = 0 ∧
    scenarioE.gstMismatches.map (fun e => e.index) = [1] ∧
    scenarioE.tallyMismatches.length = 0 := by
  refine ⟨?_, by decide, by decide, by decide, by decide⟩
  intro gstData tallyData gc tc
  have hinv := reconcile_inv gstData tallyData gc tc
  have hnd := hinv.1
  simp only [tallyIdsOf] at hnd
  exact (List.nodup_append.mp hnd).1

/-! ## Claim C2 — totality -/

/-- C2 counterexample: on Scenario E the totality sum is 5 while the
record count is 4 — the first GST row is double-counted in two exact
matches and the second GST row still appears in `gstMismatches`. -/
theorem claim2_counterexample :
    scenarioE.exactMatches.length * 2 + scenarioE.partialMatches.length * 2 +
      scenarioE.gstMismatches.length + scenarioE.tallyMismatches.length = 5 ∧
    [rowEg, rowEg].length + [rowEt, rowEt].length = 4 := by
  constructor <;> decide

/-- C2 (amended): totality holds on the Tally side — every Tally record
appears in exactly one result bucket, so
`|exactMatches| + |partialMatches| + |tallyMismatches| = |tallyData|`
for all inputs; on the GST side a record can be counted several times,
so the two-sided sum can exceed `|gstData| + |tallyData|`. -/
theorem claim2_thm (gstData tallyData : List Rec) (gc tc : List String) :
    (reconcileData gstData tallyData gc tc).exactMatches.length +
      (reconcileData gstData tallyData gc tc).partialMatches.length +
      (reconcileData gstData tallyData gc tc).tallyMismatches.length =
      tallyData.length := by
  have hinv := reconcile_inv gstData tallyData gc tc
  have h1 : (reconcileData gstData tallyData gc tc).exactMatches =
      (partialPass gstData tallyData gc tc
        (exactPass gstData tallyData gc tc)).exactMatches := rfl
  have h2 : (reconcileData gstData tallyData gc tc).partialMatches =
      (partialPass gstData tallyData gc tc
        (exactPass gstData tallyData gc tc)).partialMatches := rfl
  have h3 : (reconcileData gstData tallyData gc tc).tallyMismatches =
      ((tallyData.enum.filter fun p =>
          p.1 ∉ (partialPass gstData tallyData gc tc
            (exactPass gstData tallyData gc tc)).matchedTallyIds).map
        fun p => (⟨p.1, p.2, "Tally", "missing_in_gst"⟩ : MismatchEntry)) := rfl
  have hlen : (partialPass gstData tallyData gc tc
        (exactPass gstData tallyData gc tc)).exactMatches.length +
      (partialPass gstData tallyData gc tc
        (exactPass gstData tallyData gc tc)).partialMatches.length =
      (partialPass gstData tallyData gc tc
        (exactPass gstData tallyData gc tc)).matchedTallyIds.card := by
    have hc := tids_length_eq_card _ _ hinv
    simp only [tallyIdsOf, List.length_append, List.length_map] at hc
    exact hc
  have hmis : (reconcileData gstData tallyData gc tc).tallyMismatches.length =
      tallyData.length - (partialPass gstData tallyData gc tc
        (exactPass gstData tallyData gc tc)).matchedTallyIds.card := by
    rw [h3, List.length_map]
    exact filter_enum_not_mem_length tallyData _ hinv.2.2
  have hle := matched_card_le _ _ hinv
  rw [h1, h2, hmis, hlen]
  omega

/-! ## Claim C3 — exclusivity -/

/-- C3 counterexample: in Scenario E the GST record at index 0
participates in two different `ExactMatch` entries. -/
theorem claim3_counterexample :
    scenarioE.exactMatches.map (fun e => e.gstIndex) = [0, 0] := by
  decide

/-- C3 (amended): exclusivity holds on the Tally side — no Tally record
appears in more than one result entry across `exactMatches`,
`partialMatches` and `tallyMismatches` (their Tally indices are pairwise
distinct); a GST record, in contrast, can appear in several entries. -/
theorem claim3_thm (gstData tallyData : List Rec) (gc tc : List String) :
    (((reconcileData gstData tallyData gc tc).exactMatches.map
        (fun e => e.tallyIndex) ++
      (reconcileData gstData tallyData gc tc).partialMatches.map
        (fun e => e.tallyIndex)) ++
      (reconcileData gstData tallyData gc tc).tallyMismatches.map
        (fun e => e.index)).Nodup := by
  have hinv := reconcile_inv gstData tallyData gc tc
  have htids : (reconcileData gstData tallyData gc tc).exactMatches.map
        (fun e => e.tallyIndex) ++
      (reconcileData gstData tallyData gc tc).partialMatches.map
        (fun e => e.tallyIndex) =
      tallyIdsOf (partialPass gstData tallyData gc tc
        (exactPass gstData tallyData gc tc)) := rfl
  have hmismap : (reconcileData gstData tallyData gc tc).tallyMismatches.map
        (fun e => e.index) =
      (tallyData.enum.filter fun p =>
          p.1 ∉ (partialPass gstData tallyData gc tc
            (exactPass gstData tallyData gc tc)).matchedTallyIds).map
        Prod.fst := by
    show ((tallyData.enum.filter _).map
        (fun p => (⟨p.1, p.2, "Tally", "missing_in_gst"⟩ : MismatchEntry))).map
        (fun e => e.index) = _
    rw [List.map_map]
    rfl
  rw [List.nodup_append, htids, hmismap]
  refine ⟨hinv.1, ?_, ?_⟩
  · have hsub : ((tallyData.enum.filter fun p =>
        p.1 ∉ (partialPass gstData tallyData gc tc
          (exactPass gstData tallyData gc tc)).matchedTallyIds).map
        Prod.fst).Sublist (tallyData.enum.map Prod.fst) :=
      List.Sublist.map Prod.fst (List.filter_sublist _)
    rw [List.enum_map_fst] at hsub
    exact hsub.nodup (List.nodup_range _)
  · intro a ha hb
    have hmem : a ∈ (partialPass gstData tallyData gc tc
        (exactPass gstData tallyData gc tc)).matchedTallyIds :=
      (hinv.2.1 a).1 ha
    rw [List.mem_map] at hb
    obtain ⟨p, hp, hpa⟩ := hb
    rw [List.mem_filter] at hp
    have : p.1 ∉ (partialPass gstData tallyData gc tc
        (exactPass gstData tallyData gc tc)).matchedTallyIds := by
      simpa using hp.2
    exact this (hpa ▸ hmem)

/-! ## Claim C4 — partial-match budget -/

/-- C4 counterexample: with a 5-column mapping, `reconcileData` emits a
partial match with 4 discrepancies — its guard is
`0 < d && d < gstColumns.length`, not the budget of 3. -/
theorem claim4_counterexample :
    run4.partialMatches.map (fun e => e.discrepancies.length) = [4] := by
  decide

/-- C4 (amended): the mapped-data route matcher enforces the budget —
every emitted partial match has between 1 and 3 discrepancies — while
`reconcileData`'s in-memory partial stage only enforces
`1 <= d < |gstColumns|`, so with five or more mapped columns it emits
partial matches above the budget. -/
theorem claim4_thm :
    (∀ (gstData tallyData : List Rec) (gc tc : List String),
      ∀ e ∈ (reconcileData gstData tallyData gc tc).partialMatches,
        0 < e.discrepancies.length ∧ e.discrepancies.length < gc.length) ∧
    (∀ (gstData tallyData : List Row) (gc tc : List String)
        (g0 t0 : Finset Nat),
      ∀ e ∈ (routePartialPass gstData tallyData gc tc g0 t0).partialMatches,
        1 ≤ e.discrepancies ∧ e.discrepancies ≤ 3) := by
  constructor
  · intro gstData tallyData gc tc e he
    have h0 : (reconcileData gstData tallyData gc tc).partialMatches =
        (partialPass gstData tallyData gc tc
          (exactPass gstData tallyData gc tc)).partialMatches := rfl
    rw [h0] at he
    refine partialPass_entries gstData tallyData gc tc
      (fun e => 0 < e.discrepancies.length ∧ e.discrepancies.length < gc.length)
      ?_ (exactPass gstData tallyData gc tc) ?_ e he
    · intro i g j t
      by_cases hc : 0 < (findDiscrepancies g t gc tc).length ∧
          (findDiscrepancies g t gc tc).length < gc.length
      · exact Or.inl hc
      · exact Or.inr hc
    · intro e' he'
      rw [(exactPass_inv gstData tallyData gc tc).1] at he'
      simp at he'
  · intro gstData tallyData gc tc g0 t0 e he
    refine routePass_entries gstData tallyData gc tc g0 t0
      (fun e => 1 ≤ e.discrepancies ∧ e.discrepancies ≤ 3) ?_ e he
    intro g t S hb h3
    have hall := findBest_bound g gc tc S tallyData t hb
    exact ⟨hall.1, hall.2.1⟩

/-- C4 witness: the amended bounds applied to the concrete emitted
entries — `run4`'s 4-of-5 discrepancy entry for the in-memory stage and
`runB`'s single-discrepancy entry for the route matcher. -/
theorem claim4_witness :
    (0 < entry4.discrepancies.length ∧
      entry4.discrepancies.length <
        (["c1", "c2", "c3", "c4", "c5"] : List String).length) ∧
    (1 ≤ entryB.discrepancies ∧ entryB.discrepancies ≤ 3) := by
  constructor
  · apply claim4_thm.1 [row4g] [row4t] ["c1", "c2", "c3", "c4", "c5"]
      ["d1", "d2", "d3", "d4", "d5"]
    rw [show (reconcileData [row4g] [row4t] ["c1", "c2", "c3", "c4", "c5"]
        ["d1", "d2", "d3", "d4", "d5"]).partialMatches = [entry4] from by
      with_unfolding_all rfl]
    exact List.mem_singleton_self entry4
  · apply claim4_thm.2 [rowBg] [rowBt] ["taxable_value"] ["amt"] ∅ ∅
    rw [show (routePartialPass [rowBg] [rowBt] ["taxable_value"] ["amt"]
        ∅ ∅).partialMatches = [entryB] from by with_unfolding_all rfl]
    exact List.mem_singleton_self entryB

/-! ### Exact pass versus the SQL join formulation -/

theorem mem_enum_snd {α : Type} {p : Nat × α} {l : List α}
    (h : p ∈ l.enum) : p.2 ∈ l :=
  List.getElem?_mem (List.mem_enum_iff_getElem?.mp h)

theorem enum_fst_inj {α : Type} {l : List α} {j : Nat} {t t' : α}
    (h1 : (j, t) ∈ l.enum) (h2 : (j, t') ∈ l.enum) : t = t' := by
  have g1 := List.mem_enum_iff_getElem?.mp h1
  have g2 := List.mem_enum_iff_getElem?.mp h2
  rw [g1] at g2
  exact Option.some.inj g2

theorem partialInner_exact (i : Nat) (g : Rec) (tallyData : List Rec)
    (gc tc : List String) :
    ∀ st : ReconState,
      (partialInner i g tallyData gc tc st).exactMatches = st.exactMatches := by
  intro st
  rw [partialInner]
  revert st
  generalize tallyData.enum = l
  induction l with
  | nil =>
      intro st
      rfl
  | cons p rest ih =>
      intro st
      rw [List.foldl_cons]
      by_cases hp : p.1 ∈ st.matchedTallyIds
      · simp only [if_pos hp]
        exact ih st
      · simp only [if_neg hp]
        by_cases hcond :
            0 < (findDiscrepancies g p.2 gc tc).length ∧
            (findDiscrepancies g p.2 gc tc).length < gc.length
        · simp only [if_pos hcond]
          rw [ih]
        · simp only [if_neg hcond]
          exact ih st

theorem partialPass_exact (gstData tallyData : List Rec)
    (gc tc : List String) :
    ∀ st : ReconState,
      (partialPass gstData tallyData gc tc st).exactMatches =
        st.exactMatches := by
  intro st
  rw [partialPass]
  revert st
  generalize gstData.enum = l
  induction l with
  | nil =>
      intro st
      rfl
  | cons p rest ih =>
      intro st
      rw [List.foldl_cons]
      by_cases hp : p.1 ∈ st.matchedGstIds
      · simp only [if_pos hp]
        exact ih st
      · simp only [if_neg hp]
        rw [ih, partialInner_exact]

theorem bucket_fst_nodup (tallyData : List Rec) (tc : List String)
    (key : String) :
    ((tallyBucket tallyData tc key).map Prod.fst).Nodup := by
  have hsub : ((tallyBucket tallyData tc key).map Prod.fst).Sublist
      (tallyData.enum.map Prod.fst) :=
    List.Sublist.map Prod.fst (List.filter_sublist _)
  rw [List.enum_map_fst] at hsub
  exact hsub.nodup (List.nodup_range _)

theorem exactInner_all (i : Nat) (g : Rec) :
    ∀ (cands : List (Nat × Rec)) (st : ReconState),
      (∀ q ∈ cands, q.1 ∉ st.matchedTallyIds) →
      ((cands.map Prod.fst).Nodup) →
      (exactInner i g cands st).exactMatches =
        st.exactMatches ++ cands.map (fun q => (⟨i, g, q.1, q.2⟩ : ExactEntry)) ∧
      ∀ j, j ∈ (exactInner i g cands st).matchedTallyIds ↔
        (j ∈ st.matchedTallyIds ∨ j ∈ cands.map Prod.fst) := by
  intro cands
  induction cands with
  | nil =>
      intro st _ _
      exact ⟨by simp [exactInner], fun j => by simp [exactInner]⟩
  | cons q rest ih =>
      intro st hun hnd
      have hq : q.1 ∉ st.matchedTallyIds := hun q (List.mem_cons_self q rest)
      have hstep : exactInner i g (q :: rest) st =
          exactInner i g rest
            ({ st with
               exactMatches := st.exactMatches ++ [⟨i, g, q.1, q.2⟩]
               matchedTallyIds := insert q.1 st.matchedTallyIds
               matchedGstIds := insert i st.matchedGstIds }) := by
        simp [exactInner, hq]
      rw [hstep]
      rw [List.map_cons, List.nodup_cons] at hnd
      have hrest : ∀ r ∈ rest,
          r.1 ∉ (insert q.1 st.matchedTallyIds : Finset Nat) := by
        intro r hr
        rw [Finset.mem_insert]
        rintro (h | h)
        · exact hnd.1 (h ▸ List.mem_map_of_mem Prod.fst hr)
        · exact hun r (List.mem_cons_of_mem q hr) h
      obtain ⟨hex, hmt⟩ := ih
        (⟨st.exactMatches ++ [⟨i, g, q.1, q.2⟩], st.partialMatches,
          insert q.1 st.matchedTallyIds, insert i st.matchedGstIds⟩ : ReconState)
        hrest hnd.2
      constructor
      · rw [hex]
        simp
      · intro j
        rw [hmt j]
        simp only [Finset.mem_insert, List.map_cons, List.mem_cons]
        tauto

theorem exactFold_sql (tallyData : List Rec) (gc tc : List String) :
    ∀ (l : List (Nat × Rec)) (st : ReconState),
      ((l.map fun p => createKey p.2 gc).Nodup) →
      (∀ p ∈ l, ∀ q ∈ tallyData.enum,
        createKey q.2 tc = createKey p.2 gc → q.1 ∉ st.matchedTallyIds) →
      (l.foldl
        (fun st p =>
          exactInner p.1 p.2 (tallyBucket tallyData tc (createKey p.2 gc)) st)
        st).exactMatches =
        st.exactMatches ++
          l.flatMap (fun p =>
            (tallyBucket tallyData tc (createKey p.2 gc)).map
              fun q => (⟨p.1, p.2, q.1, q.2⟩ : ExactEntry)) := by
  intro l
  induction l with
  | nil =>
      intro st _ _
      simp
  | cons p rest ih =>
      intro st hnd hun
      rw [List.foldl_cons]
      have hbun : ∀ q ∈ tallyBucket tallyData tc (createKey p.2 gc),
          q.1 ∉ st.matchedTallyIds := by
        intro q hq
        rw [tallyBucket, List.mem_filter] at hq
        exact hun p (List.mem_cons_self p rest) q hq.1 (by simpa using hq.2)
      obtain ⟨hex, hmt⟩ := exactInner_all p.1 p.2
        (tallyBucket tallyData tc (createKey p.2 gc)) st hbun
        (bucket_fst_nodup tallyData tc _)
      rw [List.map_cons, List.nodup_cons] at hnd
      have hun' : ∀ p' ∈ rest, ∀ q ∈ tallyData.enum,
          createKey q.2 tc = createKey p'.2 gc →
          q.1 ∉ (exactInner p.1 p.2
            (tallyBucket tallyData tc (createKey p.2 gc)) st).matchedTallyIds := by
        intro p' hp' q hq hkey
        rw [hmt q.1]
        rintro (h | h)
        · exact hun p' (List.mem_cons_of_mem p hp') q hq hkey h
        · rw [List.mem_map] at h
          obtain ⟨q', hq', hq'1⟩ := h
          rw [tallyBucket, List.mem_filter] at hq'
          have hq'key : createKey q'.2 tc = createKey p.2 gc := by
            simpa using hq'.2
          have hsame : q.2 = q'.2 := by
            obtain ⟨j1, t1⟩ := q
            obtain ⟨j2, t2⟩ := q'
            simp only at hq'1
            subst hq'1
            exact enum_fst_inj hq hq'.1
          rw [← hsame] at hq'key
          rw [hkey] at hq'key
          exact hnd.1 (List.mem_map.mpr ⟨p', hp', hq'key⟩)
      rw [ih _ hnd.2 hun', hex]
      rw [List.flatMap_cons, List.append_assoc]

theorem exactPass_sql (gstData tallyData : List Rec) (gc tc : List String)
    (hg : (gstData.map fun r => createKey r gc).Nodup) :
    (exactPass gstData tallyData gc tc).exactMatches =
      gstData.enum.flatMap (fun p =>
        (tallyBucket tallyData tc (createKey p.2 gc)).map
          fun q => (⟨p.1, p.2, q.1, q.2⟩ : ExactEntry)) := by
  have hnd : ((gstData.enum.map fun p => createKey p.2 gc)).Nodup := by
    have hmm : (gstData.enum.map fun p => createKey p.2 gc) =
        (gstData.enum.map Prod.snd).map fun r => createKey r gc := by
      rw [List.map_map]
      rfl
    rw [hmm, List.enum_map_snd]
    exact hg
  have h := exactFold_sql tallyData gc tc gstData.enum initState hnd
    (fun p _ q _ _ => by simp [initState])
  rw [exactPass, h]
  rfl

theorem flatMap_congr {α β : Type} {l : List α} {f g : α → List β}
    (h : ∀ x ∈ l, f x = g x) : l.flatMap f = l.flatMap g := by
  induction l with
  | nil =>
      rfl
  | cons x rest ih =>
      rw [List.flatMap_cons, List.flatMap_cons,
        h x (List.mem_cons_self x rest),
        ih fun y hy => h y (List.mem_cons_of_mem x hy)]

theorem filter_map_eq_filterMap {α β : Type} (P : α → Prop) (Q : α → Prop)
    [DecidablePred P] [DecidablePred Q] (f : α → β) :
    ∀ l : List α, (∀ x ∈ l, P x ↔ Q x) →
      ((l.filter fun x => decide (P x)).map f) =
        l.filterMap fun x => if Q x then some (f x) else none := by
  intro l
  induction l with
  | nil =>
      intro _
      rfl
  | cons x rest ih =>
      intro h
      have hx := h x (List.mem_cons_self x rest)
      rw [List.filter_cons, List.filterMap_cons]
      by_cases hP : P x
      · rw [if_pos (decide_eq_true hP), if_pos (hx.mp hP), List.map_cons,
          ih fun y hy => h y (List.mem_cons_of_mem x hy)]
      · rw [if_neg (by simpa using hP), if_neg (fun hQ => hP (hx.mpr hQ)),
          ih fun y hy => h y (List.mem_cons_of_mem x hy)]

/-! ## Claim C7 — in-memory versus SQL exact-match formulation -/

/-- C7 counterexample: on duplicate keys the two formulations diverge —
the in-memory matcher emits 2 exact matches on Scenario E while the SQL
inner join produces all 4 cross pairs. -/
theorem claim7_counterexample :
    scenarioE.exactMatches.map (fun e => (e.gstIndex, e.tallyIndex)) =
      [(0, 0), (0, 1)] ∧
    sqlExactPairs [rowEg, rowEg] [rowEt, rowEt] ["A"] ["B"] =
      [(0, 0), (0, 1), (1, 0), (1, 1)] := by
  constructor <;> decide

/-- C7 (amended): the in-memory matcher and the SQL join formulation
compute the same exact-match pair list whenever the GST-side mapped keys
are pairwise distinct and the pipe-joined key is a faithful encoding of
the projected mapped-column tuple on every cross pair; with duplicate
GST keys (or key-encoding collisions) the two formulations diverge. -/
theorem claim7_thm (gstData tallyData : List Rec) (gc tc : List String)
    (hg : (gstData.map fun r => createKey r gc).Nodup)
    (hk : ∀ g ∈ gstData, ∀ t ∈ tallyData,
      (createKey g gc = createKey t tc ↔ keyTuple g gc = keyTuple t tc)) :
    (reconcileData gstData tallyData gc tc).exactMatches.map
      (fun e => (e.gstIndex, e.tallyIndex)) =
      sqlExactPairs gstData tallyData gc tc := by
  have h0 : (reconcileData gstData tallyData gc tc).exactMatches =
      (partialPass gstData tallyData gc tc
        (exactPass gstData tallyData gc tc)).exactMatches := rfl
  rw [h0, partialPass_exact, exactPass_sql gstData tallyData gc tc hg,
    List.map_flatMap, sqlExactPairs]
  apply flatMap_congr
  intro gp hgp
  rw [List.map_map]
  have hgmem : gp.2 ∈ gstData := mem_enum_snd hgp
  have hcong : ((tallyBucket tallyData tc (createKey gp.2 gc)).map
      fun q => (gp.1, q.1)) =
      tallyData.enum.filterMap fun tp =>
        if keyTuple gp.2 gc = keyTuple tp.2 tc then some (gp.1, tp.1)
        else none := by
    rw [tallyBucket]
    have := filter_map_eq_filterMap
      (fun q : Nat × Rec => createKey q.2 tc = createKey gp.2 gc)
      (fun q : Nat × Rec => keyTuple gp.2 gc = keyTuple q.2 tc)
      (fun q => (gp.1, q.1)) tallyData.enum
      (fun q hq => by
        have hqmem : q.2 ∈ tallyData := mem_enum_snd hq
        constructor
        · intro he
          exact (hk gp.2 hgmem q.2 hqmem).mp he.symm
        · intro he
          exact ((hk gp.2 hgmem q.2 hqmem).mpr he).symm)
    exact this
  rw [← hcong]
  rfl

/-- C7 witness: the amended equivalence applied to a concrete input with
distinct GST keys and a collision-free key encoding. -/
theorem claim7_witness :
    (reconcileData [rowEg, row4g] [rowEt] ["A"] ["B"]).exactMatches.map
      (fun e => (e.gstIndex, e.tallyIndex)) =
      sqlExactPairs [rowEg, row4g] [rowEt] ["A"] ["B"] := by
  apply claim7_thm
  · decide
  · decide

/-! ## Claim C8 — idempotence of normalization -/

/-- C8 counterexample: `normalizeValue` is not idempotent under value
equality — `normalizeValue null` is the number `0`, but normalizing again
gives the string `"0"`. -/
theorem claim8_counterexample :
    normalizeValue (normalizeValue .null) ≠ normalizeValue .null := by
  decide

/-- C8 (amended): normalization is idempotent up to JavaScript loose
equality `==` (the relation the spec's formula
`normalize(normalize(x)) == normalize(x)` uses): for every value,
`normalize(normalize(x)) == normalize(x)`. -/
theorem claim8_thm :
    ∀ v : JSVal, looseEq (normalizeValue (normalizeValue v)) (normalizeValue v) = true := by
  intro v
  by_cases h : v = .null ∨ v = .undefined ∨ v = .str ""
  · have hv : normalizeValue v = .num 0 := by
      simp only [normalizeValue, if_pos h]
    rw [hv]
    with_unfolding_all decide
  · by_cases h2 : jsTrim (jsToString v) = "-"
    · have hv : normalizeValue v = .num 0 := by
        simp only [normalizeValue, if_neg h, if_pos h2]
      rw [hv]
      with_unfolding_all decide
    · have hv : normalizeValue v = .str (jsTrim (jsToString v)) := by
        simp only [normalizeValue, if_neg h, if_neg h2]
      rw [hv]
      by_cases h3 : jsTrim (jsToString v) = ""
      · rw [h3]
        with_unfolding_all decide
      · have hs : ¬(JSVal.str (jsTrim (jsToString v)) = .null ∨
            JSVal.str (jsTrim (jsToString v)) = .undefined ∨
            JSVal.str (jsTrim (jsToString v)) = .str "") := by
          simp [h3]
        have hid : jsTrim (jsToString (JSVal.str (jsTrim (jsToString v)))) =
            jsTrim (jsToString v) := jsTrim_idem (jsToString v)
        have hv2 : normalizeValue (.str (jsTrim (jsToString v))) =
            .str (jsTrim (jsToString v)) := by
          simp only [normalizeValue, if_neg hs, hid, if_neg h2]
        rw [hv2]
        simp [looseEq]

/-! ## Claim C9 — `convertToStandardDate` -/

/-- C9 counterexample: `"abcd/ef/gh"` has no 4-digit year part and no
month in 1..12, yet `convertToStandardDate` does not return null — the
length-4 check accepts any 4 characters and `parseInt`'s NaN passes every
range comparison, so the string is reassembled verbatim. -/
theorem claim9_counterexample :
    convertToStandardDate (.str "abcd/ef/gh") = some "abcd-ef-gh" := by
  decide

/-- C9 (amended): `convertToStandardDate` maps a `parseFloat`-numeric
value strictly between 30000 and 50000 through the spreadsheet-serial
conversion (day 1 = 1900-01-01, serials above 59 decremented, zero-padded
output); otherwise it splits on `-`/`/` into exactly 3 parts, takes the
4-character (not necessarily numeric) first or last part as the year and
validates with `parseInt` comparisons that a NaN component passes, so
numeric parts are checked against month 1-12, day 1-31, year 1900-2100
while non-numeric parts are written through; null on the remaining
failures. Witnessed on: the two round-trip inputs, the serial 45000, the
strict serial bounds, a non-numeric 3-part split, month/day/year range
failures, a no-year split, a 4-part split, and falsy inputs. -/
theorem claim9_thm :
    convertToStandardDate (.str "15/01/2024") = some "2024-01-15" ∧
    convertToStandardDate (.str "2024-01-15") = some "2024-01-15" ∧
    convertToStandardDate (.num 45000) = some "2023-03-15" ∧
    convertToStandardDate (.str "45000") = some "2023-03-15" ∧
    convertToStandardDate (.num 30000) = none ∧
    convertToStandardDate (.num 50000) = none ∧
    convertToStandardDate (.str "abcd/ef/gh") = some "abcd-ef-gh" ∧
    convertToStandardDate (.str "15/13/2024") = none ∧
    convertToStandardDate (.str "32/01/2024") = none ∧
    convertToStandardDate (.str "15/01/1899") = none ∧
    convertToStandardDate (.str "15/01/2101") = none ∧
    convertToStandardDate (.str "1/2/3") = none ∧
    convertToStandardDate (.str "1-2-3-4") = none ∧
    convertToStandardDate (.str "") = none ∧
    convertToStandardDate (.num 0) = none ∧
    convertToStandardDate .null = none := by
  refine ⟨?_, ?_, ?_, ?_, ?_, ?_, ?_, ?_, ?_, ?_, ?_, ?_, ?_, ?_, ?_, ?_⟩ <;>
    with_unfolding_all decide

/-! ## Claim C10 — falsy coercion in key building and discrepancy counting -/

/-- C10: the cell normalization shared by `createKey` and
`findDiscrepancies` coerces every falsy value to the empty string, so a
numeric 0 cell is field-equal to a missing or null cell while the string
`"0"` is field-equal to neither; a single-column `findDiscrepancies` is
empty exactly when the normalized cells agree, and `createKey` identifies
a numeric-0 cell with a missing cell. -/
theorem claim10_thm :
    (∀ v : JSVal, isFalsy v = true → normCell v = "") ∧
    (∀ g t : Rec, ∀ c₁ c₂ : String,
        findDiscrepancies g t [c₁] [c₂] = [] ↔ normCell (g c₁) = normCell (t c₂)) ∧
    normCell (.num 0) = normCell .null ∧
    normCell (.num 0) = normCell .undefined ∧
    normCell (.str "0") ≠ normCell (.num 0) ∧
    normCell (.str "0") ≠ normCell .null ∧
    createKey (recOf [("A", .num 0)]) ["A"] = createKey (recOf []) ["A"] ∧
    createKey (recOf [("A", .str "0")]) ["A"] ≠ createKey (recOf [("A", .num 0)]) ["A"] := by
  refine ⟨?_, ?_, by decide, by decide, by decide, by decide, by decide, by decide⟩
  · intro v hv
    cases v with
    | null => rfl
    | undefined => rfl
    | str s =>
        have : s = "" := by simpa [isFalsy] using hv
        rw [this]
        rfl
    | num n =>
        have : n = 0 := by simpa [isFalsy] using hv
        rw [this]
        rfl
    | bool b =>
        have : b = false := by simpa [isFalsy] using hv
        rw [this]
        rfl
  · intro g t c₁ c₂
    simp only [findDiscrepancies, List.zip_cons_cons, List.zip_nil_right,
      List.filterMap_cons, List.filterMap_nil]
    by_cases h : normCell (g c₁) = normCell (t c₂)
    · simp [h]
    · simp [h]

/-- C10 witness: the falsy-coercion branch of `claim10_thm` applied to the
numeric 0 cell, and the discrepancy equivalence at a concrete pair. -/
theorem claim10_witness : normCell (.num 0) = "" :=
  claim10_thm.1 (.num 0) (by decide)

end GstRecon
